import Mathlib

namespace MatchingEngine

inductive OrderType where
  | LIMIT
  | MARKET
deriving DecidableEq

inductive OrderSide where
  | BUY
  | SELL
deriving DecidableEq

inductive TimeInForce where
  | GTC
  | IOC
  | FOK
  | DAY
deriving DecidableEq

inductive OrderStatus where
  | NEW
  | PARTIALLY_FILLED
  | FILLED
  | CANCELLED
  | EXPIRED
deriving DecidableEq

/-- Orders expire if still pending (NEW or PARTIAL) after this many seconds
(OrderBook.hpp, `static constexpr int ORDER_EXPIRY_SECONDS = 5`). -/
def ORDER_EXPIRY_SECONDS : Int := 5

/-- UTF-8 encoding of one character as a list of byte values (each < 256).
`Order::computeDeviceIdHash` iterates over the `unsigned char` bytes of a
`std::string`, which holds the UTF-8 encoding of the trader id. -/
def utf8Bytes (c : Char) : List Nat :=
  let n := c.toNat
  if n < 128 then [n]
  else if n < 2048 then [192 + n / 64, 128 + n % 64]
  else if n < 65536 then [224 + n / 4096, 128 + (n / 64) % 64, 128 + n % 64]
  else [240 + n / 262144, 128 + (n / 4096) % 64, 128 + (n / 64) % 64, 128 + n % 64]

/-- One FNV-1a step on a 32-bit accumulator: `hash ^= c; hash *= 16777619u`.
The `uint32_t` wrap-around of the multiplication is modelled by `% 2^32`
(xor of two values below `2^32` stays below `2^32`). -/
def fnv1aStep (hash byte : Nat) : Nat :=
  ((hash ^^^ byte) * 16777619) % 2 ^ 32

/-- Uppercase hexadecimal digit character for a value below 16
(as produced by `std::snprintf("%08X")`). -/
def hexDigit (n : Nat) : Char :=
  if n < 10 then Char.ofNat (48 + n) else Char.ofNat (55 + n)

/-- Big-endian zero-padded 8-digit uppercase hex rendering of a 32-bit value,
modelling `std::snprintf(buf, sizeof(buf), "%08X", hash)`. -/
def toHex8 (n : Nat) : String :=
  String.mk ((List.range 8).map (fun i => hexDigit (n / 16 ^ (7 - i) % 16)))

/-- `Order::computeDeviceIdHash`: FNV-1a 32-bit over the UTF-8 bytes of the
trader id (offset basis 2166136261, prime 16777619), rendered `%08X`. -/
def computeDeviceIdHash (traderId : String) : String :=
  toHex8 ((traderId.data.map utf8Bytes).flatten.foldl fnv1aStep 2166136261)

/-- `Logger::sanitizeTag`: replace ILP tag-special characters
(space, comma, equals) with underscore - the C++ `for (char& c : out)` loop
is modelled as a map over the characters. -/
def sanitizeTag (val : String) : String :=
  String.mk (val.data.map (fun c => if c = ' ' ∨ c = ',' ∨ c = '=' then '_' else c))

/-- One order. Prices (C++ `double`) are modelled as rationals, quantities
(`size_t`) as naturals; timestamps are seconds since the epoch. The C++
constructor draws `orderId_` from a random generator and stamps
`submitTimestamp_ = now()`; the model receives both as parameters of
`mkOrder`. The trade-context fields default to "NA" exactly as in the
source. -/
structure Order where
  orderId : String
  type : OrderType
  side : OrderSide
  price : Rat
  quantity : Nat
  remainingQuantity : Nat
  timeInForce : TimeInForce
  traderId : String
  instrumentId : Int
  status : OrderStatus
  submitTimestamp : Nat
  cancelTimestamp : Nat
  isShortSell : Bool
  matchedTradeId : String
  counterpartyBuyerUid : String
  counterpartySellerUid : String
deriving DecidableEq

/-- The `Order` constructor: `remainingQuantity_(quantity)`, `status_(NEW)`,
zero-initialised cancel timestamp, trade-context sentinels "NA". -/
def mkOrder (type : OrderType) (side : OrderSide) (price : Rat) (quantity : Nat)
    (tif : TimeInForce) (traderId : String) (instrumentId : Int)
    (orderId : String) (now : Nat) : Order :=
  { orderId := orderId
    type := type
    side := side
    price := price
    quantity := quantity
    remainingQuantity := quantity
    timeInForce := tif
    traderId := traderId
    instrumentId := instrumentId
    status := OrderStatus.NEW
    submitTimestamp := now
    cancelTimestamp := 0
    isShortSell := false
    matchedTradeId := "NA"
    counterpartyBuyerUid := "NA"
    counterpartySellerUid := "NA" }

/-- `Order::fill`: `remainingQuantity_ -= quantity` (callers always pass
`quantity = min(remaining, otherRemaining) ≤ remaining`, so the truncated
natural subtraction agrees with the `size_t` subtraction), then status
becomes FILLED when remaining hits zero, else PARTIALLY_FILLED. -/
def Order.fill (o : Order) (quantity : Nat) : Order :=
  { o with
    remainingQuantity := o.remainingQuantity - quantity
    status := if o.remainingQuantity - quantity = 0 then OrderStatus.FILLED
              else OrderStatus.PARTIALLY_FILLED }

/-- `Order::fillWithTradeContext`: embed the trade context, then `fill`. -/
def Order.fillWithTradeContext (o : Order) (quantity : Nat)
    (tradeId buyerUid sellerUid : String) : Order :=
  ({ o with
      matchedTradeId := tradeId
      counterpartyBuyerUid := buyerUid
      counterpartySellerUid := sellerUid }).fill quantity

/-- `Order::cancel`: only non-terminal orders move to CANCELLED and get the
current time stamped into `cancelTimestamp_`. -/
def Order.cancel (o : Order) (now : Nat) : Order :=
  if o.status ≠ OrderStatus.CANCELLED ∧ o.status ≠ OrderStatus.FILLED ∧
      o.status ≠ OrderStatus.EXPIRED then
    { o with status := OrderStatus.CANCELLED, cancelTimestamp := now }
  else o

/-- `Order::expire`: unconditionally set status EXPIRED. -/
def Order.expire (o : Order) : Order :=
  { o with status := OrderStatus.EXPIRED }

/-- One matched execution (`Trade`). The C++ constructor draws a random
10-digit suffix for `tradeId_`; the claims never inspect that suffix, so the
model renders only the deterministic `TRD-<instrumentId>` stem. -/
structure Trade where
  buyOrderId : String
  sellOrderId : String
  price : Rat
  quantity : Nat
  timestamp : Nat
  tradeId : String
  buyerUserId : String
  sellerUserId : String
  aggressorSide : OrderSide
  instrumentId : Int
deriving DecidableEq

/-- `Trade::generateTradeId` without the random 10-digit suffix. -/
def generateTradeId (instrumentId : Int) : String :=
  "TRD-" ++ toString instrumentId

/-- The `Trade` record built inside `OrderBook::executeTrade`: buyer/seller
and buy/sell order ids are assigned by which side the INCOMING (aggressor)
order is on; price and quantity are the match price and quantity; the
execution timestamp (`system_clock::now()` during the submit call) is
modelled by the incoming order's submit time. -/
def mkTradeFor (incomingOrder restingOrder : Order) (quantity : Nat)
    (price : Rat) : Trade :=
  let incomingIsBuy := incomingOrder.side = OrderSide.BUY
  { buyOrderId := if incomingIsBuy then incomingOrder.orderId else restingOrder.orderId
    sellOrderId := if incomingIsBuy then restingOrder.orderId else incomingOrder.orderId
    price := price
    quantity := quantity
    timestamp := incomingOrder.submitTimestamp
    tradeId := generateTradeId incomingOrder.instrumentId
    buyerUserId := if incomingIsBuy then incomingOrder.traderId else restingOrder.traderId
    sellerUserId := if incomingIsBuy then restingOrder.traderId else incomingOrder.traderId
    aggressorSide := incomingOrder.side
    instrumentId := incomingOrder.instrumentId }

/-- A FIFO price level: `price_`, the cached `totalQuantity_` and the deque
of resting orders (front = oldest). -/
structure PriceLevel where
  price : Rat
  totalQuantity : Nat
  orders : List Order
deriving DecidableEq

/-- `PriceLevel::addOrder`: push to the back of the deque and add the
order's current remaining quantity to the cache. -/
def PriceLevel.addOrder (lvl : PriceLevel) (order : Order) : PriceLevel :=
  { lvl with
    orders := lvl.orders ++ [order]
    totalQuantity := lvl.totalQuantity + order.remainingQuantity }

/-- `PriceLevel::getFirstOrder`: front of the deque, if any. -/
def PriceLevel.getFirstOrder (lvl : PriceLevel) : Option Order :=
  lvl.orders.head?

/-- Helper for `PriceLevel::removeOrder`: erase the first order with the
given id, returning the shortened list and the erased order. -/
def removeFirstOrder (orderId : String) : List Order → List Order × Option Order
  | [] => ([], none)
  | o :: rest =>
    if o.orderId = orderId then (rest, some o)
    else
      let r := removeFirstOrder orderId rest
      (o :: r.1, r.2)

/-- `PriceLevel::removeOrder`: `find_if` by id; when found, subtract the
order's CURRENT remaining quantity from the cache and erase it. -/
def PriceLevel.removeOrder (lvl : PriceLevel) (orderId : String) : PriceLevel :=
  match removeFirstOrder orderId lvl.orders with
  | (orders', some o) =>
    { lvl with
      orders := orders'
      totalQuantity := lvl.totalQuantity - o.remainingQuantity }
  | (_, none) => lvl

/-- `PriceLevel::isEmpty`. -/
def PriceLevel.isEmptyLevel (lvl : PriceLevel) : Bool :=
  lvl.orders.isEmpty

/-- `orderMap_.find(id)`: lookup in the id-keyed index. -/
def mapFind : List (String × Order) → String → Option Order
  | [], _ => none
  | kv :: rest, id => if kv.1 = id then some kv.2 else mapFind rest id

/-- Mutation of the shared `Order` object held by `orderMap_`: replace the
value stored under `id` when present (a `shared_ptr` write is visible through
every container holding the pointer), leave the map unchanged otherwise. -/
def mapUpdate : List (String × Order) → String → Order → List (String × Order)
  | [], _, _ => []
  | kv :: rest, id, o => if kv.1 = id then (id, o) :: rest else kv :: mapUpdate rest id o

/-- `orderMap_.erase(id)` (keys are unique in `std::unordered_map`). -/
def mapErase : List (String × Order) → String → List (String × Order)
  | [], _ => []
  | kv :: rest, id => if kv.1 = id then rest else kv :: mapErase rest id

/-- `orderMap_[id] = order`: replace if the key exists, else insert. -/
def mapInsert : List (String × Order) → String → Order → List (String × Order)
  | [], id, o => [(id, o)]
  | kv :: rest, id, o => if kv.1 = id then (id, o) :: rest else kv :: mapInsert rest id o

/-- The continue condition of the matching loop: `matchOrder` breaks out when
`(BUY ∧ bestPrice > limit) ∨ (SELL ∧ bestPrice < limit)`, so matching goes on
exactly when the best opposite price crosses the incoming limit. -/
def crossesBool (incoming : Order) (bestPrice : Rat) : Bool :=
  if incoming.side = OrderSide.BUY then decide (bestPrice ≤ incoming.price)
  else decide (incoming.price ≤ bestPrice)

/-- Result of one `matchOrder` loop run: the incoming order after its fills,
the opposite-side map after matching, the live-order index after the shared
mutations and erasures, the executed trades in chronological order, and the
`isFullyMatched` flag. -/
structure MatchResult where
  incoming : Order
  opposite : List PriceLevel
  orderMap : List (String × Order)
  trades : List Trade
  fullyMatched : Bool
deriving DecidableEq

/-- The two nested while-loops of `OrderBook::matchOrder`, flattened into one
recursion that performs one trade (or erases one empty level) per call. The
`opposite` list is ordered BEST PRICE FIRST: the caller passes `sellLevels_`
as-is for a BUY (its `begin()` is the best ask) and `buyLevels_` reversed for
a SELL (its `rbegin()` is the best bid), so the C++ best-level selection is
always the head. Re-examining the cross condition on every call is faithful
because the best price only changes when a level is consumed, exactly when
the outer C++ loop recomputes it. One deliberate divergence: when the
incoming order has zero remaining quantity and a crossing non-empty level
exists, the C++ loops forever (the inner `while` guard skips the body and the
outer loop repeats); the model stops. Submissions that reach the book always
have positive quantity (zero-quantity orders are rejected at the boundary),
and every theorem about submissions assumes positive quantity. -/
def matchLoop (incoming : Order) (opposite : List PriceLevel)
    (orderMap : List (String × Order)) : MatchResult :=
  match opposite with
  | [] => ⟨incoming, [], orderMap, [], false⟩
  | bestLevel :: restLevels =>
    if crossesBool incoming bestLevel.price = false then
      ⟨incoming, bestLevel :: restLevels, orderMap, [], false⟩
    else
      match hords : bestLevel.orders with
      | [] =>
        -- inner loop body never runs; `oppositeSide.erase(bestPrice)`
        let r := matchLoop incoming restLevels orderMap
        ⟨r.incoming, r.opposite, r.orderMap, r.trades, r.fullyMatched⟩
      | restingOrder :: moreOrders =>
        if incoming.remainingQuantity = 0 then
          -- C++ diverges here (see the docstring); unreachable for real orders
          ⟨incoming, bestLevel :: restLevels, orderMap, [], false⟩
        else
          let matchQty := min incoming.remainingQuantity restingOrder.remainingQuantity
          let trade := mkTradeFor incoming restingOrder matchQty bestLevel.price
          let incoming' := incoming.fillWithTradeContext matchQty trade.tradeId
            trade.buyerUserId trade.sellerUserId
          let resting' := restingOrder.fillWithTradeContext matchQty trade.tradeId
            trade.buyerUserId trade.sellerUserId
          -- the resting order is a shared object: the fill is visible in the
          -- level deque and in orderMap_
          let mapAfterFill := mapUpdate orderMap restingOrder.orderId resting'
          if resting'.remainingQuantity = 0 then
            -- removeOrderFromBook(restingOrder): the level keyed by the
            -- resting order's price is the best level (orders only ever enter
            -- the level keyed by their own price); removeOrder subtracts the
            -- CURRENT remaining (now 0) from the cache, and the map entry is
            -- erased when the level empties
            let lvl' := PriceLevel.removeOrder
              { bestLevel with orders := resting' :: moreOrders } restingOrder.orderId
            let opposite' := if lvl'.orders.isEmpty then restLevels else lvl' :: restLevels
            let map' := mapErase mapAfterFill restingOrder.orderId
            if incoming'.remainingQuantity = 0 then
              ⟨incoming', opposite', map', [trade], true⟩
            else
              let r := matchLoop incoming' opposite' map'
              ⟨r.incoming, r.opposite, r.orderMap, trade :: r.trades, r.fullyMatched⟩
          else
            let lvl' := { bestLevel with orders := resting' :: moreOrders }
            if incoming'.remainingQuantity = 0 then
              ⟨incoming', lvl' :: restLevels, mapAfterFill, [trade], true⟩
            else
              let r := matchLoop incoming' (lvl' :: restLevels) mapAfterFill
              ⟨r.incoming, r.opposite, r.orderMap, trade :: r.trades, r.fullyMatched⟩
termination_by
  incoming.remainingQuantity + (opposite.map (fun l => l.orders.length)).sum +
    opposite.length
decreasing_by
· simp [hords]
· simp only [opposite', lvl', mapAfterFill, resting', incoming', trade, matchQty] at *
  simp_all [PriceLevel.removeOrder, removeFirstOrder, Order.fillWithTradeContext, Order.fill]
  split
  · omega
  · simp
    omega
· simp only [mapAfterFill, resting', incoming', trade, matchQty] at *
  simp_all [Order.fillWithTradeContext, Order.fill]
  omega

/-- `OrderBook::addToBook` on the side map: `side[price]` walks the ascending
`std::map` to the slot for `price`, default-constructing an empty
`PriceLevel(price)` when absent, then `priceLevel->addOrder(order)`. -/
def addToBookLevels (order : Order) : List PriceLevel → List PriceLevel
  | [] => [PriceLevel.addOrder ⟨order.price, 0, []⟩ order]
  | lvl :: rest =>
    if order.price < lvl.price then
      PriceLevel.addOrder ⟨order.price, 0, []⟩ order :: lvl :: rest
    else if lvl.price = order.price then
      PriceLevel.addOrder lvl order :: rest
    else lvl :: addToBookLevels order rest

/-- `removeOrderFromBook`'s effect on one side map: `side.find(price)`, then
`removeOrder(orderId)` on that level, erasing the level when it empties. -/
def removeOrderFromLevels (price : Rat) (orderId : String) :
    List PriceLevel → List PriceLevel
  | [] => []
  | lvl :: rest =>
    if lvl.price = price then
      let lvl' := lvl.removeOrder orderId
      if lvl'.orders.isEmpty then rest else lvl' :: rest
    else lvl :: removeOrderFromLevels price orderId rest

/-- The per-instrument book. Both `buyLevels_` and `sellLevels_` are declared
`std::map<double, std::shared_ptr<PriceLevel>>` - ASCENDING by price (the
`getBuyLevels()` accessor `reinterpret_cast`s the buy map to a
`std::greater<double>` map, which does not reorder the underlying tree). Both
sides are therefore modelled as lists sorted ascending by price. -/
structure OrderBook where
  buyLevels : List PriceLevel
  sellLevels : List PriceLevel
  orderMap : List (String × Order)
  recentTrades : List Trade
  totalVolume : Nat
  buyVolume : Nat
  sellVolume : Nat
  tradeCount : Nat
deriving DecidableEq

/-- The `OrderBook` constructor state: empty maps and zeroed counters. -/
def emptyBook : OrderBook :=
  { buyLevels := []
    sellLevels := []
    orderMap := []
    recentTrades := []
    totalVolume := 0
    buyVolume := 0
    sellVolume := 0
    tradeCount := 0 }

/-- `recentTrades_.push_back(trade); if (size() > 100) erase(begin())`. -/
def pushRecentTrade (recent : List Trade) (t : Trade) : List Trade :=
  let r := recent ++ [t]
  if 100 < r.length then r.drop 1 else r

/-- What a call to `OrderBook::addOrder` produces: the book after the call,
the final state of the (caller-held, shared) incoming order, and the executed
trades in chronological order. -/
structure SubmitResult where
  book : OrderBook
  incoming : Order
  trades : List Trade
deriving DecidableEq

/-- `OrderBook::addOrder` + `matchOrder`: run the matching loop against the
opposite side (`buyLevels_` is handed to `matchLoop` reversed for a SELL so
that its head is `rbegin()`, the best bid, and reversed back afterwards),
then - step 4 - if the order is not fully matched and not IOC, insert it into
the same side at its limit price and into `orderMap_`. `executeTrade` updates
the counters per execution: `totalVolume_ += qty; tradeCount_ += 1` and the
aggressor-side counter `+= qty`; summing over the trades of the call is
equivalent. -/
def OrderBook.addOrder (book : OrderBook) (order : Order) : SubmitResult :=
  let opposite := if order.side = OrderSide.BUY then book.sellLevels else book.buyLevels
  let bestFirst := if order.side = OrderSide.BUY then opposite else opposite.reverse
  let r := matchLoop order bestFirst book.orderMap
  let oppositeAfter := if order.side = OrderSide.BUY then r.opposite else r.opposite.reverse
  let sameSide := if order.side = OrderSide.BUY then book.buyLevels else book.sellLevels
  let sameAfter :=
    if r.fullyMatched = false ∧ order.timeInForce ≠ TimeInForce.IOC then
      addToBookLevels r.incoming sameSide
    else sameSide
  let mapAfter :=
    if r.fullyMatched = false ∧ order.timeInForce ≠ TimeInForce.IOC then
      mapInsert r.orderMap r.incoming.orderId r.incoming
    else r.orderMap
  let executed := (r.trades.map Trade.quantity).sum
  { book :=
      { buyLevels := if order.side = OrderSide.BUY then sameAfter else oppositeAfter
        sellLevels := if order.side = OrderSide.BUY then oppositeAfter else sameAfter
        orderMap := mapAfter
        recentTrades := r.trades.foldl pushRecentTrade book.recentTrades
        totalVolume := book.totalVolume + executed
        buyVolume := book.buyVolume + (if order.side = OrderSide.BUY then executed else 0)
        sellVolume := book.sellVolume + (if order.side = OrderSide.SELL then executed else 0)
        tradeCount := book.tradeCount + r.trades.length }
    incoming := r.incoming
    trades := r.trades }

/-- `OrderBook::removeOrderFromBook`: pick the side map by the order's side,
remove the order from the level found under its price (erasing the level if
it empties), and erase the id from `orderMap_`. -/
def OrderBook.removeOrderFromBook (book : OrderBook) (order : Order) : OrderBook :=
  if order.side = OrderSide.BUY then
    { book with
      buyLevels := removeOrderFromLevels order.price order.orderId book.buyLevels
      orderMap := mapErase book.orderMap order.orderId }
  else
    { book with
      sellLevels := removeOrderFromLevels order.price order.orderId book.sellLevels
      orderMap := mapErase book.orderMap order.orderId }

/-- `OrderBook::cancelOrder`: unknown id - return silently; terminal status
(CANCELLED / FILLED / EXPIRED) - return silently; otherwise remove the order
from the book and `order->cancel()`. The second component is the final state
of the shared `Order` object when a cancellation was actually performed
(`none` means the call mutated nothing). -/
def OrderBook.cancelOrder (book : OrderBook) (orderId : String) (now : Nat) :
    OrderBook × Option Order :=
  match mapFind book.orderMap orderId with
  | none => (book, none)
  | some order =>
    if order.status = OrderStatus.CANCELLED ∨ order.status = OrderStatus.FILLED ∨
        order.status = OrderStatus.EXPIRED then
      (book, none)
    else
      (book.removeOrderFromBook order, some (order.cancel now))

/-- The collection condition of `OrderBook::expirePendingOrders`: status NEW
or PARTIALLY_FILLED and
`duration_cast<seconds>(now - submitTimestamp).count() >= ORDER_EXPIRY_SECONDS`
(timestamps are whole seconds in the model, so the cast truncates nothing). -/
def expiryEligible (now : Nat) (o : Order) : Bool :=
  (decide (o.status = OrderStatus.NEW) || decide (o.status = OrderStatus.PARTIALLY_FILLED)) &&
    decide (ORDER_EXPIRY_SECONDS ≤ (now : Int) - (o.submitTimestamp : Int))

/-- `OrderBook::expirePendingOrders`: walk `orderMap_` collecting every
pending order old enough to expire, remove each collected order from the book
and mark it EXPIRED. The second component lists the expired orders in their
final state; the caller emits one `logOrder` row (status event ORDER_EXPIRED)
per element. -/
def OrderBook.expirePendingOrders (book : OrderBook) (now : Nat) :
    OrderBook × List Order :=
  let toExpire := ((book.orderMap.filter (fun kv => expiryEligible now kv.2)).map Prod.snd)
  let book' := toExpire.foldl OrderBook.removeOrderFromBook book
  (book', toExpire.map Order.expire)

/-- `OrderBook::getBestBidPrice`: `buyLevels_.rbegin()` (highest key of the
ascending map), sentinel 0.0 when the side is empty. -/
def OrderBook.getBestBidPrice (book : OrderBook) : Rat :=
  match book.buyLevels.getLast? with
  | none => 0
  | some lvl => lvl.price

/-- `OrderBook::getBestAskPrice`: `sellLevels_.begin()`, sentinel 0.0 when
the side is empty. -/
def OrderBook.getBestAskPrice (book : OrderBook) : Rat :=
  match book.sellLevels.head? with
  | none => 0
  | some lvl => lvl.price

/-- `TradingApplication::buildBookJson`: iterate each side map from
`begin()` taking at most 5 levels, emitting `(price, totalQuantity)` pairs.
Iteration of the `reinterpret_cast` buy-map view walks the same underlying
tree in the same (price-ascending) order, so both sides list their LOWEST
prices first. -/
def buildBookDepth (book : OrderBook) : List (Rat × Nat) × List (Rat × Nat) :=
  ((book.buyLevels.take 5).map (fun lvl => (lvl.price, lvl.totalQuantity)),
   (book.sellLevels.take 5).map (fun lvl => (lvl.price, lvl.totalQuantity)))

/-- `Logger::orderStatusEventStr`. -/
def orderStatusEventStr : OrderStatus → String
  | OrderStatus.NEW => "ORDER_NEW"
  | OrderStatus.PARTIALLY_FILLED => "ORDER_PARTIAL"
  | OrderStatus.FILLED => "ORDER_FILLED"
  | OrderStatus.CANCELLED => "ORDER_CANCELLED"
  | OrderStatus.EXPIRED => "ORDER_EXPIRED"

/-- Side tag rendering used by the logger. -/
def sideStr : OrderSide → String
  | OrderSide.BUY => "BUY"
  | OrderSide.SELL => "SELL"

/-- `Logger::marketPhaseFromTp`: minutes within the UTC day shifted by
IST (+5h30m); `[09:00,09:15) = PRE_OPEN`, `[09:15,15:30) = OPEN`,
else CLOSED. -/
def marketPhaseFromTp (t : Nat) : String :=
  let utcMin := (t / 60) % 1440
  let istMin := (utcMin + 330) % 1440
  if 540 ≤ istMin ∧ istMin < 555 then "PRE_OPEN"
  else if 555 ≤ istMin ∧ istMin < 930 then "OPEN"
  else "CLOSED"

/-- The SYMBOL (tag) section of one `trade_logs` ILP line. The typed field
section and the trailing timestamp are not needed by any claim. -/
structure LogRecord where
  order_id : String
  instrument_id : String
  order_type : String
  side : String
  order_status_event : String
  user_id : String
  trade_id : String
  buyer_user_id : String
  seller_user_id : String
  aggressor_side : String
  market_phase : String
  device_id_hash : String
deriving DecidableEq

/-- `Logger::logTrade`: one TRADE_MATCH row per executed trade. `order_id`
carries the buy-side order id, `order_type` is MATCH, `side` carries the
aggressor side, `user_id` the buyer id, and `device_id_hash` the FNV-1a
fingerprint of the AGGRESSOR's user id. -/
def logTrade (trade : Trade) : LogRecord :=
  let aggrUserId :=
    if trade.aggressorSide = OrderSide.BUY then trade.buyerUserId else trade.sellerUserId
  { order_id := sanitizeTag trade.buyOrderId
    instrument_id := toString trade.instrumentId
    order_type := "MATCH"
    side := sideStr trade.aggressorSide
    order_status_event := "TRADE_MATCH"
    user_id := sanitizeTag trade.buyerUserId
    trade_id := sanitizeTag trade.tradeId
    buyer_user_id := sanitizeTag trade.buyerUserId
    seller_user_id := sanitizeTag trade.sellerUserId
    aggressor_side := sideStr trade.aggressorSide
    market_phase := sanitizeTag (marketPhaseFromTp trade.timestamp)
    device_id_hash := sanitizeTag (computeDeviceIdHash aggrUserId) }

/-- One operation against a book. `submit` carries the constructor arguments
of the order plus the (randomly generated in C++) order id and the submit
wall-clock time. -/
inductive Op where
  | submit (type : OrderType) (side : OrderSide) (price : Rat) (quantity : Nat)
      (tif : TimeInForce) (traderId : String) (instrumentId : Int)
      (orderId : String) (time : Nat)
  | cancel (orderId : String) (time : Nat)
  | expireSweep (time : Nat)

/-- A book plus the full stream of executed trades (every TRADE_MATCH event
ever emitted, unlike the bounded `recentTrades_` window). -/
structure EngineState where
  book : OrderBook
  tradeLog : List Trade
deriving DecidableEq

/-- Fresh engine: empty book, no trades. -/
def initState : EngineState :=
  { book := emptyBook, tradeLog := [] }

/-- Run one operation to completion (each C++ call holds the book mutex for
its whole body, so operations are serialised). -/
def applyOp (s : EngineState) : Op → EngineState
  | Op.submit ty sd p q tif trader instr oid t =>
    let r := s.book.addOrder (mkOrder ty sd p q tif trader instr oid t)
    { book := r.book, tradeLog := s.tradeLog ++ r.trades }
  | Op.cancel oid t => { s with book := (s.book.cancelOrder oid t).1 }
  | Op.expireSweep t => { s with book := (s.book.expirePendingOrders t).1 }

/-- Boundary validity: zero-quantity submissions are rejected at the UI and
never reach the book. -/
def Op.valid : Op → Prop
  | Op.submit _ _ _ q _ _ _ _ _ => 0 < q
  | Op.cancel _ _ => True
  | Op.expireSweep _ => True

/-- States reachable from a fresh engine by any sequence of valid submit,
cancel and expiry-sweep operations, each run to completion. -/
inductive ReachableState : EngineState → Prop where
  | init : ReachableState initState
  | step {s : EngineState} (op : Op) (hs : ReachableState s) (hv : op.valid) :
      ReachableState (applyOp s op)

/-- The best opposite price level exactly as `matchOrder` selects it:
`begin()` of the ascending ask map for an incoming BUY, `rbegin()` of the
ascending bid map for an incoming SELL. -/
def bestOppositeLevel (book : OrderBook) (sd : OrderSide) : Option PriceLevel :=
  if sd = OrderSide.BUY then book.sellLevels.head? else book.buyLevels.getLast?

/-- All orders resting in one side map, in level-then-FIFO order. -/
def levelsOrders (side : List PriceLevel) : List Order :=
  (side.map PriceLevel.orders).flatten

/-- All orders resting in the book (both sides). -/
def bookOrders (book : OrderBook) : List Order :=
  levelsOrders book.buyLevels ++ levelsOrders book.sellLevels

/-- The price keys of one side map, in storage (ascending) order. -/
def sidePrices (side : List PriceLevel) : List Rat :=
  side.map PriceLevel.price

/-- A string that ILP tag sanitization leaves unchanged (no space, comma or
equals sign). -/
def ilpSafe (s : String) : Prop := sanitizeTag s = s

/-- Exactly eight characters, each an uppercase hexadecimal digit. -/
def isUpperHex8 (s : String) : Prop :=
  s.length = 8 ∧
    ∀ c ∈ s.data, (48 ≤ c.toNat ∧ c.toNat ≤ 57) ∨ (65 ≤ c.toNat ∧ c.toNat ≤ 70)

/-- The structural invariants that the two side maps satisfy in every state
the engine can actually reach (levels sorted ascending by price on both
sides, and every resting bid strictly below every resting ask). -/
structure SidesInv (book : OrderBook) : Prop where
  buySorted : List.Pairwise (fun a b => a < b) (sidePrices book.buyLevels)
  sellSorted : List.Pairwise (fun a b => a < b) (sidePrices book.sellLevels)
  noCross : ∀ bl ∈ book.buyLevels, ∀ sl ∈ book.sellLevels, bl.price < sl.price

/-- Full structural well-formedness of a book: sorted sides, well-kept
levels (non-empty, holding live orders of the right side at the level's own
price), globally unique order ids, and an `orderMap_` index that agrees with
the level contents in both directions. Reachable books satisfy all of it;
the theorems that need parts of it take it as a hypothesis. -/
structure BookWF (book : OrderBook) : Prop where
  buySorted : List.Pairwise (fun a b => a < b) (sidePrices book.buyLevels)
  sellSorted : List.Pairwise (fun a b => a < b) (sidePrices book.sellLevels)
  levelsNonempty : ∀ lvl ∈ book.buyLevels ++ book.sellLevels, lvl.orders ≠ []
  ordersPrice : ∀ lvl ∈ book.buyLevels ++ book.sellLevels, ∀ o ∈ lvl.orders,
    o.price = lvl.price
  buySide : ∀ lvl ∈ book.buyLevels, ∀ o ∈ lvl.orders, o.side = OrderSide.BUY
  sellSide : ∀ lvl ∈ book.sellLevels, ∀ o ∈ lvl.orders, o.side = OrderSide.SELL
  idsNodup : ((bookOrders book).map Order.orderId).Nodup
  mapKeys : ∀ kv ∈ book.orderMap, kv.2.orderId = kv.1
  mapNodup : (book.orderMap.map Prod.fst).Nodup
  mapToLevels : ∀ kv ∈ book.orderMap, kv.2 ∈ bookOrders book
  levelsToMap : ∀ o ∈ bookOrders book, mapFind book.orderMap o.orderId = some o

/-- Concrete run used as evidence: a BUY of 10 rests at price 10, then a
SELL of 4 partially fills it (4 shares trade, 6 remain). -/
def partialFillRun : EngineState :=
  applyOp (applyOp initState
    (Op.submit OrderType.LIMIT OrderSide.BUY 10 10 TimeInForce.GTC "TA" 1 "A" 0))
    (Op.submit OrderType.LIMIT OrderSide.SELL 10 4 TimeInForce.GTC "TB" 1 "S" 0)

/-- Concrete run used as evidence: six resting BUY orders at prices 1..6 and
no asks. -/
def sixBidsRun : EngineState :=
  [Op.submit OrderType.LIMIT OrderSide.BUY 6 1 TimeInForce.GTC "T" 1 "b6" 0,
   Op.submit OrderType.LIMIT OrderSide.BUY 1 1 TimeInForce.GTC "T" 1 "b1" 0,
   Op.submit OrderType.LIMIT OrderSide.BUY 3 1 TimeInForce.GTC "T" 1 "b3" 0,
   Op.submit OrderType.LIMIT OrderSide.BUY 5 1 TimeInForce.GTC "T" 1 "b5" 0,
   Op.submit OrderType.LIMIT OrderSide.BUY 2 1 TimeInForce.GTC "T" 1 "b2" 0,
   Op.submit OrderType.LIMIT OrderSide.BUY 4 1 TimeInForce.GTC "T" 1 "b4" 0].foldl
    applyOp initState

/-- Concrete run used as evidence for time priority: BUY A then BUY B rest
at the same price 10, then a SELL for exactly A's size crosses. -/
def timePriorityRun : EngineState :=
  [Op.submit OrderType.LIMIT OrderSide.BUY 10 50 TimeInForce.GTC "TA" 1 "A" 0,
   Op.submit OrderType.LIMIT OrderSide.BUY 10 50 TimeInForce.GTC "TB" 1 "B" 0,
   Op.submit OrderType.LIMIT OrderSide.SELL 10 50 TimeInForce.GTC "TC" 1 "C" 0].foldl
    applyOp initState

/-- Concrete book used as evidence for the TRADE_MATCH record fields: one
resting SELL of 7 at price 10. -/
def c9Book : OrderBook :=
  ⟨[], [⟨10, 7, [mkOrder OrderType.LIMIT OrderSide.SELL 10 7 TimeInForce.GTC "TS" 1 "S" 0]⟩],
    [("S", mkOrder OrderType.LIMIT OrderSide.SELL 10 7 TimeInForce.GTC "TS" 1 "S" 0)],
    [], 0, 0, 0, 0⟩

/-- The crossing BUY aggressor for the `c9Book` evidence run. -/
def c9Incoming : Order :=
  mkOrder OrderType.LIMIT OrderSide.BUY 10 4 TimeInForce.GTC "TB" 1 "B" 0

/-- The one trade the `c9Book` evidence run executes: the BUY aggressor "B"
(trader "TB") lifts 4 from resting SELL "S" (trader "TS") at price 10. -/
def c9Trade : Trade :=
  ⟨"B", "S", 10, 4, 0, "TRD-1", "TB", "TS", OrderSide.BUY, 1⟩

/-- A live resting order used as cancellation/expiry evidence: BUY 5 @ 10,
id "A", submitted at time 0. -/
def c6Order : Order :=
  mkOrder OrderType.LIMIT OrderSide.BUY 10 5 TimeInForce.GTC "TA" 1 "A" 0

/-- A younger resting order for the expiry evidence: BUY 3 @ 11, id "B",
submitted at time 8. -/
def c7Young : Order :=
  mkOrder OrderType.LIMIT OrderSide.BUY 11 3 TimeInForce.GTC "TB" 1 "B" 8

/-- Evidence book holding only `c6Order`. -/
def c6Book : OrderBook :=
  ⟨[⟨10, 5, [c6Order]⟩], [], [("A", c6Order)], [], 0, 0, 0, 0⟩

/-- Evidence book holding `c6Order` (old) and `c7Young` (fresh), both resting
bids on adjacent levels. -/
def c7Book : OrderBook :=
  ⟨[⟨10, 5, [c6Order]⟩, ⟨11, 3, [c7Young]⟩], [],
    [("A", c6Order), ("B", c7Young)], [], 0, 0, 0, 0⟩

@[simp] theorem Order.fillWithTradeContext_orderId (o : Order) (q : Nat)
    (a b c : String) : (o.fillWithTradeContext q a b c).orderId = o.orderId := rfl

@[simp] theorem Order.fillWithTradeContext_remaining (o : Order) (q : Nat)
    (a b c : String) :
    (o.fillWithTradeContext q a b c).remainingQuantity = o.remainingQuantity - q := rfl

@[simp] theorem Order.fillWithTradeContext_side (o : Order) (q : Nat)
    (a b c : String) : (o.fillWithTradeContext q a b c).side = o.side := rfl

@[simp] theorem Order.fillWithTradeContext_price (o : Order) (q : Nat)
    (a b c : String) : (o.fillWithTradeContext q a b c).price = o.price := rfl

@[simp] theorem Order.fillWithTradeContext_tif (o : Order) (q : Nat)
    (a b c : String) : (o.fillWithTradeContext q a b c).timeInForce = o.timeInForce := rfl

@[simp] theorem Order.fillWithTradeContext_traderId (o : Order) (q : Nat)
    (a b c : String) : (o.fillWithTradeContext q a b c).traderId = o.traderId := rfl

/-- Claim C2 evidence. The spec states the invariant "the level's cached
totalQuantity equals the sum of members' remaining", but `Order::fill` never
touches the enclosing level's cache and `PriceLevel::removeOrder` subtracts
only the CURRENT remaining of the order it erases, so a partial fill leaves
the cache stale. After submitting BUY 10 @ 10 and then SELL 4 @ 10, the buy
level at price 10 caches totalQuantity 10 while its single member has
remaining 6. -/
theorem c2_total_quantity_cache_bug :
    (partialFillRun.book.buyLevels.map
        (fun lvl => (lvl.price, lvl.totalQuantity,
          (lvl.orders.map Order.remainingQuantity).sum))) = [(10, 10, 6)] ∧
    ∃ lvl ∈ partialFillRun.book.buyLevels,
      lvl.totalQuantity ≠ (lvl.orders.map Order.remainingQuantity).sum := by
  have h : (partialFillRun.book.buyLevels.map
      (fun lvl => (lvl.price, lvl.totalQuantity,
        (lvl.orders.map Order.remainingQuantity).sum))) = [(10, 10, 6)] := by
    simp [partialFillRun, applyOp, initState, emptyBook, OrderBook.addOrder, matchLoop,
      mkOrder, crossesBool, addToBookLevels, PriceLevel.addOrder, mapInsert, mapUpdate,
      mapErase, Order.fillWithTradeContext, Order.fill, mkTradeFor, pushRecentTrade,
      PriceLevel.removeOrder, removeFirstOrder]
  refine ⟨h, ?_⟩
  rcases hb : partialFillRun.book.buyLevels with _ | ⟨lvl, rest⟩
  · rw [hb] at h
    simp at h
  · rw [hb] at h
    simp only [List.map_cons, List.cons.injEq, Prod.mk.injEq] at h
    exact ⟨lvl, by simp, by omega⟩

@[simp] theorem PriceLevel.removeOrder_price (lvl : PriceLevel) (id : String) :
    (lvl.removeOrder id).price = lvl.price := by
  unfold PriceLevel.removeOrder
  split <;> simp_all

@[simp] theorem crossesBool_fillWithTradeContext (o : Order) (q : Nat)
    (a b c : String) (p : Rat) :
    crossesBool (o.fillWithTradeContext q a b c) p = crossesBool o p := by
  simp [crossesBool]

/-- Branch equation: matching against an empty opposite side does nothing. -/
theorem matchLoop_nil (incoming : Order) (m : List (String × Order)) :
    matchLoop incoming [] m = ⟨incoming, [], m, [], false⟩ := by
  unfold matchLoop
  rfl

/-- Branch equation: when the best opposite price does not cross, the loop
breaks immediately and nothing changes. -/
theorem matchLoop_nocross (incoming : Order) (best : PriceLevel)
    (rest : List PriceLevel) (m : List (String × Order))
    (hcross : crossesBool incoming best.price = false) :
    matchLoop incoming (best :: rest) m = ⟨incoming, best :: rest, m, [], false⟩ := by
  unfold matchLoop
  simp [hcross]

/-- Branch equation: an empty crossing level is erased and matching goes on
with the remaining levels. -/
theorem matchLoop_emptyLevel (incoming : Order) (best : PriceLevel)
    (rest : List PriceLevel) (m : List (String × Order))
    (hcross : ¬ crossesBool incoming best.price = false)
    (hords : best.orders = []) :
    matchLoop incoming (best :: rest) m = matchLoop incoming rest m := by
  conv_lhs => unfold matchLoop
  rw [if_neg hcross]
  split
  · rfl
  · simp_all

/-- Branch equation: a zero-remaining incoming order stops the loop (the
modelled replacement for the C++ divergence, see `matchLoop`). -/
theorem matchLoop_zeroRem (incoming : Order) (best : PriceLevel)
    (rest : List PriceLevel) (m : List (String × Order))
    (hcross : ¬ crossesBool incoming best.price = false)
    (resting : Order) (more : List Order)
    (hords : best.orders = resting :: more)
    (hrem : incoming.remainingQuantity = 0) :
    matchLoop incoming (best :: rest) m = ⟨incoming, best :: rest, m, [], false⟩ := by
  conv_lhs => unfold matchLoop
  rw [if_neg hcross]
  split
  · simp_all
  · simp_all

/-- Branch equation: one `executeTrade` step against the head resting order
of the (crossing, non-empty) best level. -/
theorem matchLoop_tradeStep (incoming : Order) (best : PriceLevel)
    (rest : List PriceLevel) (m : List (String × Order))
    (hcross : ¬ crossesBool incoming best.price = false)
    (resting : Order) (more : List Order)
    (hords : best.orders = resting :: more)
    (hrem : ¬ incoming.remainingQuantity = 0) :
    matchLoop incoming (best :: rest) m =
      (let matchQty := min incoming.remainingQuantity resting.remainingQuantity
       let trade := mkTradeFor incoming resting matchQty best.price
       let incoming' := incoming.fillWithTradeContext matchQty trade.tradeId
         trade.buyerUserId trade.sellerUserId
       let resting' := resting.fillWithTradeContext matchQty trade.tradeId
         trade.buyerUserId trade.sellerUserId
       let mapAfterFill := mapUpdate m resting.orderId resting'
       if resting'.remainingQuantity = 0 then
         let lvl' := PriceLevel.removeOrder
           ⟨best.price, best.totalQuantity, resting' :: more⟩ resting.orderId
         let opposite' := if lvl'.orders.isEmpty then rest else lvl' :: rest
         let map' := mapErase mapAfterFill resting.orderId
         if incoming'.remainingQuantity = 0 then
           ⟨incoming', opposite', map', [trade], true⟩
         else
           let r := matchLoop incoming' opposite' map'
           ⟨r.incoming, r.opposite, r.orderMap, trade :: r.trades, r.fullyMatched⟩
       else
         let lvl' : PriceLevel := ⟨best.price, best.totalQuantity, resting' :: more⟩
         if incoming'.remainingQuantity = 0 then
           ⟨incoming', lvl' :: rest, mapAfterFill, [trade], true⟩
         else
           let r := matchLoop incoming' (lvl' :: rest) mapAfterFill
           ⟨r.incoming, r.opposite, r.orderMap, trade :: r.trades, r.fullyMatched⟩) := by
  conv_lhs => unfold matchLoop
  rw [if_neg hcross]
  split
  · simp_all
  · rename_i resting2 more2 heq
    rw [hords] at heq
    injection heq with h1 h2
    subst h1
    subst h2
    rw [if_neg hrem]

/-- Claim C3 counterexample: after submitting BUY 10@10 then SELL 4@10 there
is one executed trade of quantity 4 (totalExecuted = 4), and
`buyVolume + sellVolume = 0 + 4 = 4 ≠ 8 = 2 × totalExecuted`: each match adds
its quantity to exactly ONE side counter, so the side counters sum to
totalExecuted, not to twice it. -/
theorem c3_counterexample :
    ¬ (partialFillRun.book.buyVolume + partialFillRun.book.sellVolume =
        2 * (partialFillRun.tradeLog.map Trade.quantity).sum) := by
  simp [partialFillRun, applyOp, initState, emptyBook, OrderBook.addOrder, matchLoop,
    mkOrder, crossesBool, addToBookLevels, PriceLevel.addOrder, mapInsert, mapUpdate,
    mapErase, Order.fillWithTradeContext, Order.fill, mkTradeFor, pushRecentTrade,
    PriceLevel.removeOrder, removeFirstOrder]

/-- Projections of the book built by `OrderBook::addOrder`: `executeTrade`
adds each executed quantity to `totalVolume_` and to the aggressor-side
counter, adds one to `tradeCount_`, and leaves the other side counter
alone. -/
theorem OrderBook.addOrder_counters (book : OrderBook) (o : Order) :
    (book.addOrder o).book.totalVolume =
      book.totalVolume + ((book.addOrder o).trades.map Trade.quantity).sum ∧
    (book.addOrder o).book.buyVolume =
      book.buyVolume + (if o.side = OrderSide.BUY then
        ((book.addOrder o).trades.map Trade.quantity).sum else 0) ∧
    (book.addOrder o).book.sellVolume =
      book.sellVolume + (if o.side = OrderSide.SELL then
        ((book.addOrder o).trades.map Trade.quantity).sum else 0) := by
  simp [OrderBook.addOrder]

/-- `removeOrderFromBook` touches only the side maps and the id index; all
volume counters are untouched. -/
theorem OrderBook.removeOrderFromBook_counters (book : OrderBook) (o : Order) :
    (book.removeOrderFromBook o).totalVolume = book.totalVolume ∧
    (book.removeOrderFromBook o).buyVolume = book.buyVolume ∧
    (book.removeOrderFromBook o).sellVolume = book.sellVolume := by
  unfold OrderBook.removeOrderFromBook
  split <;> simp

/-- Folding removals (the expiry sweep) keeps all volume counters. -/
theorem foldl_removeOrderFromBook_counters (L : List Order) (book : OrderBook) :
    ((L.foldl OrderBook.removeOrderFromBook book).totalVolume = book.totalVolume ∧
     (L.foldl OrderBook.removeOrderFromBook book).buyVolume = book.buyVolume ∧
     (L.foldl OrderBook.removeOrderFromBook book).sellVolume = book.sellVolume) := by
  induction L generalizing book with
  | nil => simp
  | cons o L ih =>
    have h := OrderBook.removeOrderFromBook_counters book o
    have h2 := ih (book.removeOrderFromBook o)
    simp only [List.foldl_cons]
    omega

/-- `cancelOrder` keeps all volume counters. -/
theorem OrderBook.cancelOrder_counters (book : OrderBook) (oid : String) (now : Nat) :
    ((book.cancelOrder oid now).1.totalVolume = book.totalVolume ∧
     (book.cancelOrder oid now).1.buyVolume = book.buyVolume ∧
     (book.cancelOrder oid now).1.sellVolume = book.sellVolume) := by
  unfold OrderBook.cancelOrder
  rcases mapFind book.orderMap oid with _ | order
  · simp
  · simp only
    split
    · simp
    · exact OrderBook.removeOrderFromBook_counters book order

/-- `expirePendingOrders` keeps all volume counters. -/
theorem OrderBook.expirePendingOrders_counters (book : OrderBook) (now : Nat) :
    ((book.expirePendingOrders now).1.totalVolume = book.totalVolume ∧
     (book.expirePendingOrders now).1.buyVolume = book.buyVolume ∧
     (book.expirePendingOrders now).1.sellVolume = book.sellVolume) := by
  unfold OrderBook.expirePendingOrders
  exact foldl_removeOrderFromBook_counters _ book

/-- Claim C3, amended. As the claim itself parenthesises, each match
increments exactly one side counter by the match quantity and the total
counter by the match quantity, so after any sequence of operations
`buyVolume + sellVolume = totalExecuted` (the sum of quantities over all
executed trades) and `totalVolume = totalExecuted` - not
`buyVolume + sellVolume = 2 × totalExecuted`. -/
theorem c3_volume_identity (s : EngineState) (hs : ReachableState s) :
    s.book.buyVolume + s.book.sellVolume = (s.tradeLog.map Trade.quantity).sum ∧
    s.book.totalVolume = (s.tradeLog.map Trade.quantity).sum := by
  induction hs with
  | init => simp [initState, emptyBook]
  | @step s op hs hv ih =>
    rcases op with ⟨ty, sd, p, q, tif, trader, instr, oid, t⟩ | ⟨oid, t⟩ | t
    · have h := OrderBook.addOrder_counters s.book (mkOrder ty sd p q tif trader instr oid t)
      simp only [applyOp, List.map_append, List.sum_append]
      have hside : (mkOrder ty sd p q tif trader instr oid t).side = sd := rfl
      rw [hside] at h
      rcases sd <;> simp_all <;> omega
    · have h := OrderBook.cancelOrder_counters s.book oid t
      simp only [applyOp]
      omega
    · have h := OrderBook.expirePendingOrders_counters s.book t
      simp only [applyOp]
      omega

/-- Witness for the amended C3 at a concrete reachable state (the
partial-fill run: one trade of quantity 4). -/
theorem c3_volume_identity_witness :
    ReachableState partialFillRun ∧
    (partialFillRun.book.buyVolume + partialFillRun.book.sellVolume =
        (partialFillRun.tradeLog.map Trade.quantity).sum ∧
      partialFillRun.book.totalVolume =
        (partialFillRun.tradeLog.map Trade.quantity).sum) := by
  have hr : ReachableState partialFillRun :=
    ReachableState.step _ (ReachableState.step _ ReachableState.init (by simp [Op.valid]))
      (by simp [Op.valid])
  exact ⟨hr, c3_volume_identity partialFillRun hr⟩

/-- Claim C4 counterexample: with six resting bids at prices 1..6 the bids
array of the depth snapshot lists the five LOWEST bid prices in ASCENDING
order - `buyLevels_` is physically an ascending `std::map` and the
`reinterpret_cast` in `getBuyLevels()` does not reorder the tree - not the
five highest in descending order as the claim states. -/
theorem c4_counterexample :
    (buildBookDepth sixBidsRun.book).1.map Prod.fst = [1, 2, 3, 4, 5] ∧
    (buildBookDepth sixBidsRun.book).1.map Prod.fst ≠ [6, 5, 4, 3, 2] := by
  have h : (buildBookDepth sixBidsRun.book).1.map Prod.fst = [1, 2, 3, 4, 5] := by
    have hne : TimeInForce.GTC ≠ TimeInForce.IOC := by decide
    norm_num [hne, sixBidsRun, applyOp, initState, emptyBook, OrderBook.addOrder, matchLoop,
      mkOrder, crossesBool, addToBookLevels, PriceLevel.addOrder, mapInsert, mapUpdate,
      mapErase, Order.fillWithTradeContext, Order.fill, mkTradeFor, pushRecentTrade,
      PriceLevel.removeOrder, removeFirstOrder, buildBookDepth]
  refine ⟨h, ?_⟩
  rw [h]
  decide

end MatchingEngine

namespace MatchingEngine

set_option linter.unusedVariables false

theorem matchLoop_trade_fullResting_done (incoming : Order) (best : PriceLevel)
    (rest : List PriceLevel) (m : List (String × Order))
    (hcross : ¬ crossesBool incoming best.price = false)
    (resting : Order) (more : List Order)
    (hords : best.orders = resting :: more)
    (hrem : ¬ incoming.remainingQuantity = 0)
    (hz : resting.remainingQuantity -
      min incoming.remainingQuantity resting.remainingQuantity = 0)
    (hi : incoming.remainingQuantity -
      min incoming.remainingQuantity resting.remainingQuantity = 0) :
    matchLoop incoming (best :: rest) m =
      (let matchQty := min incoming.remainingQuantity resting.remainingQuantity
       let trade := mkTradeFor incoming resting matchQty best.price
       let incoming' := incoming.fillWithTradeContext matchQty trade.tradeId
         trade.buyerUserId trade.sellerUserId
       let resting' := resting.fillWithTradeContext matchQty trade.tradeId
         trade.buyerUserId trade.sellerUserId
       let lvl' := PriceLevel.removeOrder
         ⟨best.price, best.totalQuantity, resting' :: more⟩ resting.orderId
       ⟨incoming', if lvl'.orders.isEmpty then rest else lvl' :: rest,
        mapErase (mapUpdate m resting.orderId resting') resting.orderId,
        [trade], true⟩) := by
  rw [matchLoop_tradeStep _ _ _ _ hcross _ _ hords hrem]
  simp [hz, hi]

theorem matchLoop_trade_fullResting_cont (incoming : Order) (best : PriceLevel)
    (rest : List PriceLevel) (m : List (String × Order))
    (hcross : ¬ crossesBool incoming best.price = false)
    (resting : Order) (more : List Order)
    (hords : best.orders = resting :: more)
    (hrem : ¬ incoming.remainingQuantity = 0)
    (hz : resting.remainingQuantity -
      min incoming.remainingQuantity resting.remainingQuantity = 0)
    (hi : ¬ incoming.remainingQuantity -
      min incoming.remainingQuantity resting.remainingQuantity = 0) :
    matchLoop incoming (best :: rest) m =
      (let matchQty := min incoming.remainingQuantity resting.remainingQuantity
       let trade := mkTradeFor incoming resting matchQty best.price
       let incoming' := incoming.fillWithTradeContext matchQty trade.tradeId
         trade.buyerUserId trade.sellerUserId
       let resting' := resting.fillWithTradeContext matchQty trade.tradeId
         trade.buyerUserId trade.sellerUserId
       let lvl' := PriceLevel.removeOrder
         ⟨best.price, best.totalQuantity, resting' :: more⟩ resting.orderId
       let r := matchLoop incoming'
         (if lvl'.orders.isEmpty then rest else lvl' :: rest)
         (mapErase (mapUpdate m resting.orderId resting') resting.orderId)
       ⟨r.incoming, r.opposite, r.orderMap, trade :: r.trades, r.fullyMatched⟩) := by
  rw [matchLoop_tradeStep _ _ _ _ hcross _ _ hords hrem]
  simp [hz, hi]

theorem matchLoop_trade_partialResting_done (incoming : Order) (best : PriceLevel)
    (rest : List PriceLevel) (m : List (String × Order))
    (hcross : ¬ crossesBool incoming best.price = false)
    (resting : Order) (more : List Order)
    (hords : best.orders = resting :: more)
    (hrem : ¬ incoming.remainingQuantity = 0)
    (hz : ¬ resting.remainingQuantity -
      min incoming.remainingQuantity resting.remainingQuantity = 0)
    (hi : incoming.remainingQuantity -
      min incoming.remainingQuantity resting.remainingQuantity = 0) :
    matchLoop incoming (best :: rest) m =
      (let matchQty := min incoming.remainingQuantity resting.remainingQuantity
       let trade := mkTradeFor incoming resting matchQty best.price
       let incoming' := incoming.fillWithTradeContext matchQty trade.tradeId
         trade.buyerUserId trade.sellerUserId
       let resting' := resting.fillWithTradeContext matchQty trade.tradeId
         trade.buyerUserId trade.sellerUserId
       ⟨incoming', PriceLevel.mk best.price best.totalQuantity (resting' :: more) :: rest,
        mapUpdate m resting.orderId resting', [trade], true⟩) := by
  rw [matchLoop_tradeStep _ _ _ _ hcross _ _ hords hrem]
  simp [hz, hi]

theorem matchLoop_trade_partialResting_cont (incoming : Order) (best : PriceLevel)
    (rest : List PriceLevel) (m : List (String × Order))
    (hcross : ¬ crossesBool incoming best.price = false)
    (resting : Order) (more : List Order)
    (hords : best.orders = resting :: more)
    (hrem : ¬ incoming.remainingQuantity = 0)
    (hz : ¬ resting.remainingQuantity -
      min incoming.remainingQuantity resting.remainingQuantity = 0)
    (hi : ¬ incoming.remainingQuantity -
      min incoming.remainingQuantity resting.remainingQuantity = 0) :
    matchLoop incoming (best :: rest) m =
      (let matchQty := min incoming.remainingQuantity resting.remainingQuantity
       let trade := mkTradeFor incoming resting matchQty best.price
       let incoming' := incoming.fillWithTradeContext matchQty trade.tradeId
         trade.buyerUserId trade.sellerUserId
       let resting' := resting.fillWithTradeContext matchQty trade.tradeId
         trade.buyerUserId trade.sellerUserId
       let r := matchLoop incoming'
         (PriceLevel.mk best.price best.totalQuantity (resting' :: more) :: rest)
         (mapUpdate m resting.orderId resting')
       ⟨r.incoming, r.opposite, r.orderMap, trade :: r.trades, r.fullyMatched⟩) := by
  rw [matchLoop_tradeStep _ _ _ _ hcross _ _ hords hrem]
  simp [hz, hi]

end MatchingEngine

namespace MatchingEngine

theorem matchLoop_exit (incoming : Order) (opposite : List PriceLevel)
    (m : List (String × Order)) (h0 : ¬ incoming.remainingQuantity = 0)
    (hflag : (matchLoop incoming opposite m).fullyMatched = false) :
    ¬ (matchLoop incoming opposite m).incoming.remainingQuantity = 0 ∧
    ∀ lvl, (matchLoop incoming opposite m).opposite.head? = some lvl →
      crossesBool incoming lvl.price = false := by
  induction incoming, opposite, m using matchLoop.induct with
  | case1 incoming m =>
    rw [matchLoop_nil]
    exact ⟨h0, by intro lvl h; simp at h⟩
  | case2 incoming m best rest hcross =>
    rw [matchLoop_nocross _ _ _ _ hcross]
    refine ⟨h0, ?_⟩
    intro lvl h
    simp only [List.head?_cons, Option.some.injEq] at h
    rw [← h]
    exact hcross
  | case3 incoming m best rest hcross hords ih =>
    rw [matchLoop_emptyLevel _ _ _ _ hcross hords] at hflag ⊢
    exact ih h0 hflag
  | case4 incoming m best rest hcross resting more hords hrem =>
    exact absurd hrem h0
  | case5 incoming m best rest hcross resting more hords hrem mq tr inc2 rst2 hz hi =>
    rw [matchLoop_trade_fullResting_done _ _ _ _ hcross _ _ hords hrem hz hi] at hflag
    simp at hflag
  | case6 incoming m best rest hcross resting more hords hrem mq tr inc2 rst2 mAF hz lvl2 opp2 map2 hi ih =>
    rw [matchLoop_trade_fullResting_cont _ _ _ _ hcross _ _ hords hrem hz hi] at hflag ⊢
    have hflag2 : (matchLoop inc2 opp2 map2).fullyMatched = false := hflag
    have h2 := ih hi hflag2
    refine ⟨h2.1, ?_⟩
    intro lvl h
    have h3 := h2.2 lvl h
    simp only [inc2] at h3
    rw [crossesBool_fillWithTradeContext] at h3
    exact h3
  | case7 incoming m best rest hcross resting more hords hrem mq tr inc2 rst2 hz hi =>
    rw [matchLoop_trade_partialResting_done _ _ _ _ hcross _ _ hords hrem hz hi] at hflag
    simp at hflag
  | case8 incoming m best rest hcross resting more hords hrem mq tr inc2 rst2 mAF hz lvl2 hi ih =>
    rw [matchLoop_trade_partialResting_cont _ _ _ _ hcross _ _ hords hrem hz hi] at hflag ⊢
    have hflag2 : (matchLoop inc2 (lvl2 :: rest) mAF).fullyMatched = false := hflag
    have h2 := ih hi hflag2
    refine ⟨h2.1, ?_⟩
    intro lvl h
    have h3 := h2.2 lvl h
    simp only [inc2] at h3
    rw [crossesBool_fillWithTradeContext] at h3
    exact h3

end MatchingEngine

namespace MatchingEngine

@[simp] theorem Order.fillWithTradeContext_quantity (o : Order) (q : Nat)
    (a b c : String) : (o.fillWithTradeContext q a b c).quantity = o.quantity := rfl

@[simp] theorem Order.fillWithTradeContext_submitTimestamp (o : Order) (q : Nat)
    (a b c : String) :
    (o.fillWithTradeContext q a b c).submitTimestamp = o.submitTimestamp := rfl

@[simp] theorem Order.fillWithTradeContext_instrumentId (o : Order) (q : Nat)
    (a b c : String) :
    (o.fillWithTradeContext q a b c).instrumentId = o.instrumentId := rfl

theorem matchLoop_incoming_fields (incoming : Order) (opposite : List PriceLevel)
    (m : List (String × Order)) :
    (matchLoop incoming opposite m).incoming.side = incoming.side ∧
    (matchLoop incoming opposite m).incoming.price = incoming.price ∧
    (matchLoop incoming opposite m).incoming.timeInForce = incoming.timeInForce ∧
    (matchLoop incoming opposite m).incoming.orderId = incoming.orderId ∧
    (matchLoop incoming opposite m).incoming.traderId = incoming.traderId := by
  induction incoming, opposite, m using matchLoop.induct with
  | case1 incoming m => rw [matchLoop_nil]; exact ⟨rfl, rfl, rfl, rfl, rfl⟩
  | case2 incoming m best rest hcross =>
    rw [matchLoop_nocross _ _ _ _ hcross]; exact ⟨rfl, rfl, rfl, rfl, rfl⟩
  | case3 incoming m best rest hcross hords ih =>
    rw [matchLoop_emptyLevel _ _ _ _ hcross hords]; exact ih
  | case4 incoming m best rest hcross resting more hords hrem =>
    rw [matchLoop_zeroRem _ _ _ _ hcross _ _ hords hrem]; exact ⟨rfl, rfl, rfl, rfl, rfl⟩
  | case5 incoming m best rest hcross resting more hords hrem mq tr inc2 rst2 hz hi =>
    rw [matchLoop_trade_fullResting_done _ _ _ _ hcross _ _ hords hrem hz hi]
    exact ⟨rfl, rfl, rfl, rfl, rfl⟩
  | case6 incoming m best rest hcross resting more hords hrem mq tr inc2 rst2 mAF hz lvl2 opp2 map2 hi ih =>
    rw [matchLoop_trade_fullResting_cont _ _ _ _ hcross _ _ hords hrem hz hi]
    have h2 := ih
    simp only [inc2, Order.fillWithTradeContext_side, Order.fillWithTradeContext_price,
      Order.fillWithTradeContext_tif, Order.fillWithTradeContext_orderId,
      Order.fillWithTradeContext_traderId] at h2
    exact h2
  | case7 incoming m best rest hcross resting more hords hrem mq tr inc2 rst2 hz hi =>
    rw [matchLoop_trade_partialResting_done _ _ _ _ hcross _ _ hords hrem hz hi]
    exact ⟨rfl, rfl, rfl, rfl, rfl⟩
  | case8 incoming m best rest hcross resting more hords hrem mq tr inc2 rst2 mAF hz lvl2 hi ih =>
    rw [matchLoop_trade_partialResting_cont _ _ _ _ hcross _ _ hords hrem hz hi]
    have h2 := ih
    simp only [inc2, Order.fillWithTradeContext_side, Order.fillWithTradeContext_price,
      Order.fillWithTradeContext_tif, Order.fillWithTradeContext_orderId,
      Order.fillWithTradeContext_traderId] at h2
    exact h2

theorem matchLoop_trades_aggressor (incoming : Order) (opposite : List PriceLevel)
    (m : List (String × Order)) :
    ∀ t ∈ (matchLoop incoming opposite m).trades,
      t.aggressorSide = incoming.side ∧
      (if t.aggressorSide = OrderSide.BUY then t.buyOrderId else t.sellOrderId) =
        incoming.orderId ∧
      (if t.aggressorSide = OrderSide.BUY then t.buyerUserId else t.sellerUserId) =
        incoming.traderId := by
  induction incoming, opposite, m using matchLoop.induct with
  | case1 incoming m => rw [matchLoop_nil]; intro t ht; simp at ht
  | case2 incoming m best rest hcross =>
    rw [matchLoop_nocross _ _ _ _ hcross]; intro t ht; simp at ht
  | case3 incoming m best rest hcross hords ih =>
    rw [matchLoop_emptyLevel _ _ _ _ hcross hords]; exact ih
  | case4 incoming m best rest hcross resting more hords hrem =>
    rw [matchLoop_zeroRem _ _ _ _ hcross _ _ hords hrem]; intro t ht; simp at ht
  | case5 incoming m best rest hcross resting more hords hrem mq tr inc2 rst2 hz hi =>
    rw [matchLoop_trade_fullResting_done _ _ _ _ hcross _ _ hords hrem hz hi]
    intro t ht
    have ht2 : t ∈ [tr] := ht
    simp at ht2
    subst ht2
    simp only [tr, mkTradeFor]
    rcases hs : incoming.side <;> simp [hs]
  | case6 incoming m best rest hcross resting more hords hrem mq tr inc2 rst2 mAF hz lvl2 opp2 map2 hi ih =>
    rw [matchLoop_trade_fullResting_cont _ _ _ _ hcross _ _ hords hrem hz hi]
    intro t ht
    have ht2 : t ∈ tr :: (matchLoop inc2 opp2 map2).trades := ht
    rcases List.mem_cons.mp ht2 with rfl | hmem
    · simp only [tr, mkTradeFor]
      rcases hs : incoming.side <;> simp [hs]
    · have h3 := ih t hmem
      simp only [inc2, Order.fillWithTradeContext_side, Order.fillWithTradeContext_orderId,
        Order.fillWithTradeContext_traderId] at h3
      exact h3
  | case7 incoming m best rest hcross resting more hords hrem mq tr inc2 rst2 hz hi =>
    rw [matchLoop_trade_partialResting_done _ _ _ _ hcross _ _ hords hrem hz hi]
    intro t ht
    have ht2 : t ∈ [tr] := ht
    simp at ht2
    subst ht2
    simp only [tr, mkTradeFor]
    rcases hs : incoming.side <;> simp [hs]
  | case8 incoming m best rest hcross resting more hords hrem mq tr inc2 rst2 mAF hz lvl2 hi ih =>
    rw [matchLoop_trade_partialResting_cont _ _ _ _ hcross _ _ hords hrem hz hi]
    intro t ht
    have ht2 : t ∈ tr :: (matchLoop inc2 (lvl2 :: rest) mAF).trades := ht
    rcases List.mem_cons.mp ht2 with rfl | hmem
    · simp only [tr, mkTradeFor]
      rcases hs : incoming.side <;> simp [hs]
    · have h3 := ih t hmem
      simp only [inc2, Order.fillWithTradeContext_side, Order.fillWithTradeContext_orderId,
        Order.fillWithTradeContext_traderId] at h3
      exact h3

theorem matchLoop_first_trade (incoming : Order) (best : PriceLevel)
    (rest : List PriceLevel) (m : List (String × Order))
    (hcross : ¬ crossesBool incoming best.price = false)
    (resting : Order) (more : List Order)
    (hords : best.orders = resting :: more)
    (hrem : ¬ incoming.remainingQuantity = 0) :
    (matchLoop incoming (best :: rest) m).trades.head? =
      some (mkTradeFor incoming resting
        (min incoming.remainingQuantity resting.remainingQuantity) best.price) := by
  by_cases hz : resting.remainingQuantity -
      min incoming.remainingQuantity resting.remainingQuantity = 0
  · by_cases hi : incoming.remainingQuantity -
        min incoming.remainingQuantity resting.remainingQuantity = 0
    · rw [matchLoop_trade_fullResting_done _ _ _ _ hcross _ _ hords hrem hz hi]
      rfl
    · rw [matchLoop_trade_fullResting_cont _ _ _ _ hcross _ _ hords hrem hz hi]
      rfl
  · by_cases hi : incoming.remainingQuantity -
        min incoming.remainingQuantity resting.remainingQuantity = 0
    · rw [matchLoop_trade_partialResting_done _ _ _ _ hcross _ _ hords hrem hz hi]
      rfl
    · rw [matchLoop_trade_partialResting_cont _ _ _ _ hcross _ _ hords hrem hz hi]
      rfl

end MatchingEngine

namespace MatchingEngine


theorem matchLoop_sweep (incoming : Order) (opposite : List PriceLevel)
    (m : List (String × Order))
    (hcrossAll : ∀ lvl ∈ opposite, ¬ crossesBool incoming lvl.price = false)
    (hne : ∀ lvl ∈ opposite, lvl.orders ≠ [])
    (hpos : ∀ lvl ∈ opposite, ∀ o ∈ lvl.orders, 0 < o.remainingQuantity)
    (hq : ((levelsOrders opposite).map Order.remainingQuantity).sum ≤
      incoming.remainingQuantity) :
    (matchLoop incoming opposite m).opposite = [] := by
  induction incoming, opposite, m using matchLoop.induct with
  | case1 incoming m => rw [matchLoop_nil]
  | case2 incoming m best rest hcross =>
    exact absurd hcross (hcrossAll best (by simp))
  | case3 incoming m best rest hcross hords ih =>
    exact absurd hords (hne best (by simp))
  | case4 incoming m best rest hcross resting more hords hrem =>
    have h1 : 0 < resting.remainingQuantity :=
      hpos best (by simp) resting (by simp [hords])
    simp [levelsOrders, hords, hrem] at hq
    omega
  | case5 incoming m best rest hcross resting more hords hrem mq tr inc2 rst2 hz hi =>
    have hzA : resting.remainingQuantity -
        min incoming.remainingQuantity resting.remainingQuantity = 0 := hz
    have hiA : incoming.remainingQuantity -
        min incoming.remainingQuantity resting.remainingQuantity = 0 := hi
    simp [levelsOrders, hords] at hq
    have hmore : more = [] := by
      cases more with
      | nil => rfl
      | cons o os =>
        have := hpos best (by simp) o (by simp [hords])
        simp at hq
        omega
    have hrest : rest = [] := by
      cases rest with
      | nil => rfl
      | cons lvl ls =>
        rcases hlv : lvl.orders with _ | ⟨o, os⟩
        · exact absurd hlv (hne lvl (by simp))
        · have := hpos lvl (by simp) o (by simp [hlv])
          simp [levelsOrders, hlv] at hq
          omega
    subst hmore
    subst hrest
    rw [matchLoop_trade_fullResting_done _ _ _ _ hcross _ _ hords hrem hzA hiA]
    simp [PriceLevel.removeOrder, removeFirstOrder]
  | case6 incoming m best rest hcross resting more hords hrem mq tr inc2 rst2 mAF hz lvl2 opp2 map2 hi ih =>
    rw [matchLoop_trade_fullResting_cont _ _ _ _ hcross _ _ hords hrem hz hi]
    have hlvl2 : lvl2.orders = more := by
      simp [lvl2, rst2, PriceLevel.removeOrder, removeFirstOrder]
    have hmem2 : ∀ lvl ∈ opp2, lvl = lvl2 ∨ lvl ∈ rest := by
      intro lvl hmem
      simp only [opp2] at hmem
      split at hmem
      · exact Or.inr hmem
      · rcases List.mem_cons.mp hmem with rfl | h
        · exact Or.inl rfl
        · exact Or.inr h
    have hca : ∀ lvl ∈ opp2, ¬ crossesBool inc2 lvl.price = false := by
      intro lvl hmem
      have hcb : crossesBool inc2 lvl.price = crossesBool incoming lvl.price := by
        simp only [inc2]
        rw [crossesBool_fillWithTradeContext]
      rw [hcb]
      rcases hmem2 lvl hmem with rfl | h
      · have hp : lvl2.price = best.price := by simp [lvl2]
        rw [hp]
        exact hcrossAll best (by simp)
      · exact hcrossAll lvl (by simp [h])
    have hne2 : ∀ lvl ∈ opp2, lvl.orders ≠ [] := by
      intro lvl hmem
      simp only [opp2] at hmem
      split at hmem
      · exact hne lvl (by simp [hmem])
      · rcases List.mem_cons.mp hmem with rfl | h
        · rename_i hnotemp
          simpa using hnotemp
        · exact hne lvl (by simp [h])
    have hpos2 : ∀ lvl ∈ opp2, ∀ o ∈ lvl.orders, 0 < o.remainingQuantity := by
      intro lvl hmem o ho
      rcases hmem2 lvl hmem with rfl | h
      · rw [hlvl2] at ho
        exact hpos best (by simp) o (by simp [hords, ho])
      · exact hpos lvl (by simp [h]) o ho
    have hq2 : ((levelsOrders opp2).map Order.remainingQuantity).sum ≤
        inc2.remainingQuantity := by
      have hzA : resting.remainingQuantity -
          min incoming.remainingQuantity resting.remainingQuantity = 0 := hz
      have hinc2 : inc2.remainingQuantity =
          incoming.remainingQuantity -
            min incoming.remainingQuantity resting.remainingQuantity := rfl
      have hsum : ((levelsOrders opp2).map Order.remainingQuantity).sum =
          ((more.map Order.remainingQuantity).sum +
            ((levelsOrders rest).map Order.remainingQuantity).sum) := by
        simp only [opp2]
        split
        · rename_i hemp
          rw [hlvl2] at hemp
          simp at hemp
          simp [hemp, levelsOrders]
        · simp [levelsOrders, hlvl2]
      have hqsplit : ((levelsOrders (best :: rest)).map Order.remainingQuantity).sum =
          resting.remainingQuantity + (more.map Order.remainingQuantity).sum +
            ((levelsOrders rest).map Order.remainingQuantity).sum := by
        simp [levelsOrders, hords]
        omega
      rw [hqsplit] at hq
      rw [hsum, hinc2]
      omega
    exact ih hca hne2 hpos2 hq2
  | case7 incoming m best rest hcross resting more hords hrem mq tr inc2 rst2 hz hi =>
    have hzA : ¬ resting.remainingQuantity -
        min incoming.remainingQuantity resting.remainingQuantity = 0 := hz
    have hiA : incoming.remainingQuantity -
        min incoming.remainingQuantity resting.remainingQuantity = 0 := hi
    have h1 : 0 < resting.remainingQuantity :=
      hpos best (by simp) resting (by simp [hords])
    simp [levelsOrders, hords] at hq
    exfalso
    omega
  | case8 incoming m best rest hcross resting more hords hrem mq tr inc2 rst2 mAF hz lvl2 hi ih =>
    have hzA : ¬ resting.remainingQuantity -
        min incoming.remainingQuantity resting.remainingQuantity = 0 := hz
    have hiA : ¬ incoming.remainingQuantity -
        min incoming.remainingQuantity resting.remainingQuantity = 0 := hi
    exfalso
    omega

end MatchingEngine

namespace MatchingEngine

theorem matchLoop_prices_sublist (incoming : Order) (opposite : List PriceLevel)
    (m : List (String × Order)) :
    ((matchLoop incoming opposite m).opposite.map PriceLevel.price).Sublist
      (opposite.map PriceLevel.price) := by
  induction incoming, opposite, m using matchLoop.induct with
  | case1 incoming m => simp [matchLoop_nil]
  | case2 incoming m best rest hcross => simp [matchLoop_nocross _ _ _ _ hcross]
  | case3 incoming m best rest hcross hords ih =>
    rw [matchLoop_emptyLevel _ _ _ _ hcross hords]
    exact ih.cons _
  | case4 incoming m best rest hcross resting more hords hrem =>
    simp [matchLoop_zeroRem _ _ _ _ hcross _ _ hords hrem]
  | case5 incoming m best rest hcross resting more hords hrem mq tr inc2 rst2 hz hi =>
    rw [matchLoop_tradeStep _ _ _ _ hcross _ _ hords hrem]
    simp [mq, tr, inc2, rst2] at hz hi
    simp [hz, hi]
    split <;> simp
  | case6 incoming m best rest hcross resting more hords hrem mq tr inc2 rst2 mAF hz lvl2 opp2 map2 hi ih =>
    rw [matchLoop_tradeStep _ _ _ _ hcross _ _ hords hrem]
    simp [mq, tr, inc2, rst2, mAF] at hz hi
    simp [mq, tr, inc2, rst2, mAF, lvl2, opp2, map2] at ih
    simp [hz, hi]
    refine ih.trans ?_
    split <;> simp
  | case7 incoming m best rest hcross resting more hords hrem mq tr inc2 rst2 hz hi =>
    rw [matchLoop_tradeStep _ _ _ _ hcross _ _ hords hrem]
    simp [mq, tr, inc2, rst2] at hz hi
    simp [hz, hi]
  | case8 incoming m best rest hcross resting more hords hrem mq tr inc2 rst2 mAF hz lvl2 hi ih =>
    rw [matchLoop_tradeStep _ _ _ _ hcross _ _ hords hrem]
    simp [mq, tr, inc2, rst2, mAF] at hz hi
    simp [mq, tr, inc2, rst2, mAF, lvl2] at ih
    simp [hz, hi]
    refine ih.trans ?_
    simp

end MatchingEngine

namespace MatchingEngine

theorem crossesBool_false_buy (o : Order) (p : Rat) (hs : o.side = OrderSide.BUY) :
    crossesBool o p = false ↔ o.price < p := by
  simp [crossesBool, hs]

theorem crossesBool_false_sell (o : Order) (p : Rat) (hs : o.side = OrderSide.SELL) :
    crossesBool o p = false ↔ p < o.price := by
  simp [crossesBool, hs]

theorem sorted_head_le {a : Rat} {l : List Rat}
    (h : List.Pairwise (fun x y => x < y) (a :: l)) :
    ∀ b ∈ a :: l, a ≤ b := by
  intro b hb
  rcases List.mem_cons.mp hb with rfl | hb2
  · exact le_refl b
  · exact le_of_lt ((List.pairwise_cons.mp h).1 b hb2)

theorem sorted_head_ge {a : Rat} {l : List Rat}
    (h : List.Pairwise (fun x y => x > y) (a :: l)) :
    ∀ b ∈ a :: l, b ≤ a := by
  intro b hb
  rcases List.mem_cons.mp hb with rfl | hb2
  · exact le_refl b
  · exact le_of_lt ((List.pairwise_cons.mp h).1 b hb2)

theorem addToBookLevels_prices (o : Order) (side : List PriceLevel) :
    ∀ p ∈ sidePrices (addToBookLevels o side), p = o.price ∨ p ∈ sidePrices side := by
  induction side with
  | nil => simp [addToBookLevels, sidePrices, PriceLevel.addOrder]
  | cons lvl rest ih =>
    intro p hp
    simp only [addToBookLevels] at hp
    split at hp
    · simp [sidePrices, PriceLevel.addOrder] at hp
      rcases hp with h | h | h
      · exact Or.inl h
      · exact Or.inr (by simp [sidePrices, h])
      · exact Or.inr (by simp [sidePrices]; exact Or.inr h)
    · split at hp
      · simp [sidePrices, PriceLevel.addOrder] at hp
        rcases hp with h | h
        · exact Or.inr (by simp [sidePrices, h])
        · exact Or.inr (by simp [sidePrices]; exact Or.inr h)
      · simp only [sidePrices, List.map_cons, List.mem_cons] at hp
        rcases hp with h | h
        · exact Or.inr (by simp [sidePrices, h])
        · rcases ih p h with h2 | h2
          · exact Or.inl h2
          · exact Or.inr (by simp [sidePrices] at h2 ⊢; exact Or.inr h2)

@[simp] theorem PriceLevel.addOrder_price (lvl : PriceLevel) (o : Order) :
    (lvl.addOrder o).price = lvl.price := rfl

theorem addToBookLevels_sorted (o : Order) (side : List PriceLevel)
    (h : List.Pairwise (fun a b => a < b) (sidePrices side)) :
    List.Pairwise (fun a b => a < b) (sidePrices (addToBookLevels o side)) := by
  induction side with
  | nil => simp [addToBookLevels, sidePrices]
  | cons lvl rest ih =>
    simp only [sidePrices, List.map_cons, List.pairwise_cons] at h
    simp only [addToBookLevels]
    split
    · rename_i hlt
      simp only [sidePrices, List.map_cons, PriceLevel.addOrder_price]
      refine List.pairwise_cons.mpr ⟨?_, List.pairwise_cons.mpr ⟨h.1, h.2⟩⟩
      intro p hp
      rcases List.mem_cons.mp hp with rfl | hp2
      · exact hlt
      · exact lt_trans hlt (h.1 p hp2)
    · rename_i hnlt
      split
      · rename_i heq
        simp only [sidePrices, List.map_cons, PriceLevel.addOrder_price]
        exact List.pairwise_cons.mpr ⟨h.1, h.2⟩
      · rename_i hneq
        simp only [sidePrices, List.map_cons]
        refine List.pairwise_cons.mpr ⟨?_, ih h.2⟩
        intro p hp
        rcases addToBookLevels_prices o rest p hp with rfl | hmem
        · rcases lt_trichotomy lvl.price o.price with h3 | h3 | h3
          · exact h3
          · exact absurd h3 hneq
          · exact absurd h3 (by simpa using hnlt)
        · exact h.1 p hmem

end MatchingEngine

namespace MatchingEngine

theorem removeOrderFromLevels_prices_sublist (p : Rat) (id : String)
    (side : List PriceLevel) :
    (sidePrices (removeOrderFromLevels p id side)).Sublist (sidePrices side) := by
  induction side with
  | nil => simp [removeOrderFromLevels, sidePrices]
  | cons lvl rest ih =>
    simp only [removeOrderFromLevels]
    split
    · split
      · simp only [sidePrices, List.map_cons]
        exact List.sublist_cons_self _ _
      · simp [sidePrices]
    · simp only [sidePrices, List.map_cons]
      exact ih.cons₂ _

theorem addOrder_buy_sides (book : OrderBook) (o : Order)
    (hs : o.side = OrderSide.BUY) :
    (book.addOrder o).book.sellLevels =
      (matchLoop o book.sellLevels book.orderMap).opposite ∧
    (book.addOrder o).book.buyLevels =
      (if (matchLoop o book.sellLevels book.orderMap).fullyMatched = false ∧
          o.timeInForce ≠ TimeInForce.IOC then
        addToBookLevels (matchLoop o book.sellLevels book.orderMap).incoming
          book.buyLevels
      else book.buyLevels) := by
  simp [OrderBook.addOrder, hs]

theorem addOrder_sell_sides (book : OrderBook) (o : Order)
    (hs : o.side = OrderSide.SELL) :
    (book.addOrder o).book.buyLevels =
      (matchLoop o book.buyLevels.reverse book.orderMap).opposite.reverse ∧
    (book.addOrder o).book.sellLevels =
      (if (matchLoop o book.buyLevels.reverse book.orderMap).fullyMatched = false ∧
          o.timeInForce ≠ TimeInForce.IOC then
        addToBookLevels (matchLoop o book.buyLevels.reverse book.orderMap).incoming
          book.sellLevels
      else book.sellLevels) := by
  have hs2 : o.side ≠ OrderSide.BUY := by simp [hs]
  simp [OrderBook.addOrder, hs2]

end MatchingEngine

namespace MatchingEngine

theorem addOrder_sidesInv (book : OrderBook) (o : Order)
    (hq : ¬ o.remainingQuantity = 0) (h : SidesInv book) :
    SidesInv (book.addOrder o).book := by
  rcases hside : o.side with _ | _
  · obtain ⟨hsell, hbuy⟩ := addOrder_buy_sides book o hside
    have hsub := matchLoop_prices_sublist o book.sellLevels book.orderMap
    refine ⟨?_, ?_, ?_⟩
    · rw [hbuy]
      split
      · exact addToBookLevels_sorted _ _ h.buySorted
      · exact h.buySorted
    · rw [hsell]
      exact List.Pairwise.sublist hsub h.sellSorted
    · intro bl hbl sl hsl
      rw [hsell] at hsl
      have hslp : sl.price ∈ sidePrices book.sellLevels :=
        hsub.mem (List.mem_map_of_mem PriceLevel.price hsl)
      obtain ⟨sl0, hsl0, hsl0p⟩ := List.mem_map.mp hslp
      rw [hbuy] at hbl
      split at hbl
      · rename_i hrest
        have hblp := addToBookLevels_prices _ _ bl.price
          (List.mem_map_of_mem PriceLevel.price hbl)
        rcases hblp with hnew | hold
        · have hip : (matchLoop o book.sellLevels book.orderMap).incoming.price =
              o.price := (matchLoop_incoming_fields o book.sellLevels book.orderMap).2.1
          have hex := matchLoop_exit o book.sellLevels book.orderMap hq hrest.1
          rcases hopp : (matchLoop o book.sellLevels book.orderMap).opposite with
            _ | ⟨lvlh, rest2⟩
          · rw [hopp] at hsl
            simp at hsl
          · have hch := hex.2 lvlh (by rw [hopp]; rfl)
            have hlt : o.price < lvlh.price :=
              (crossesBool_false_buy o lvlh.price hside).mp hch
            have hsorted : List.Pairwise (fun a b => a < b)
                (lvlh.price :: (rest2.map PriceLevel.price)) := by
              have := List.Pairwise.sublist hsub h.sellSorted
              rw [hopp] at this
              simpa [sidePrices] using this
            have hle : lvlh.price ≤ sl.price := by
              refine sorted_head_le hsorted sl.price ?_
              rw [hopp] at hsl
              rcases List.mem_cons.mp hsl with rfl | hm
              · simp
              · simp [List.mem_map_of_mem PriceLevel.price hm]
            rw [hnew, hip]
            exact lt_of_lt_of_le hlt hle
        · obtain ⟨bl0, hbl0, hbl0p⟩ := List.mem_map.mp hold
          rw [← hbl0p, ← hsl0p]
          exact h.noCross bl0 hbl0 sl0 hsl0
      · rw [← hsl0p]
        exact h.noCross bl hbl sl0 hsl0
  · obtain ⟨hbuy, hsell⟩ := addOrder_sell_sides book o hside
    have hsub := matchLoop_prices_sublist o book.buyLevels.reverse book.orderMap
    have hrevsorted : List.Pairwise (fun a b => a > b)
        ((matchLoop o book.buyLevels.reverse book.orderMap).opposite.map
          PriceLevel.price) := by
      refine List.Pairwise.sublist hsub ?_
      rw [List.map_reverse, List.pairwise_reverse]
      exact h.buySorted
    refine ⟨?_, ?_, ?_⟩
    · rw [hbuy]
      have : sidePrices ((matchLoop o book.buyLevels.reverse book.orderMap).opposite.reverse) =
          ((matchLoop o book.buyLevels.reverse book.orderMap).opposite.map
            PriceLevel.price).reverse := by
        simp [sidePrices, List.map_reverse]
      rw [this, List.pairwise_reverse]
      exact hrevsorted.imp (fun hab => hab)
    · rw [hsell]
      split
      · exact addToBookLevels_sorted _ _ h.sellSorted
      · exact h.sellSorted
    · intro bl hbl sl hsl
      rw [hbuy] at hbl
      rw [List.mem_reverse] at hbl
      have hblp : bl.price ∈ sidePrices book.buyLevels := by
        have h1 : bl.price ∈ (book.buyLevels.reverse.map PriceLevel.price) :=
          hsub.mem (List.mem_map_of_mem PriceLevel.price hbl)
        rw [List.map_reverse, List.mem_reverse] at h1
        exact h1
      obtain ⟨bl0, hbl0, hbl0p⟩ := List.mem_map.mp hblp
      rw [hsell] at hsl
      split at hsl
      · rename_i hrest
        have hslp := addToBookLevels_prices _ _ sl.price
          (List.mem_map_of_mem PriceLevel.price hsl)
        rcases hslp with hnew | hold
        · have hip : (matchLoop o book.buyLevels.reverse book.orderMap).incoming.price =
              o.price :=
            (matchLoop_incoming_fields o book.buyLevels.reverse book.orderMap).2.1
          have hex := matchLoop_exit o book.buyLevels.reverse book.orderMap hq hrest.1
          rcases hopp : (matchLoop o book.buyLevels.reverse book.orderMap).opposite with
            _ | ⟨lvlh, rest2⟩
          · rw [hopp] at hbl
            simp at hbl
          · have hch := hex.2 lvlh (by rw [hopp]; rfl)
            have hlt : lvlh.price < o.price :=
              (crossesBool_false_sell o lvlh.price hside).mp hch
            have hsorted : List.Pairwise (fun a b => a > b)
                (lvlh.price :: (rest2.map PriceLevel.price)) := by
              rw [hopp] at hrevsorted
              simpa using hrevsorted
            have hle : bl.price ≤ lvlh.price := by
              refine sorted_head_ge hsorted bl.price ?_
              rw [hopp] at hbl
              rcases List.mem_cons.mp hbl with rfl | hm
              · simp
              · simp [List.mem_map_of_mem PriceLevel.price hm]
            rw [hnew, hip]
            exact lt_of_le_of_lt hle hlt
        · obtain ⟨sl0, hsl0, hsl0p⟩ := List.mem_map.mp hold
          rw [← hbl0p, ← hsl0p]
          exact h.noCross bl0 hbl0 sl0 hsl0
      · rw [← hbl0p]
        exact h.noCross bl0 hbl0 sl hsl

end MatchingEngine

namespace MatchingEngine

theorem removeOrderFromBook_sidesInv (book : OrderBook) (o : Order)
    (h : SidesInv book) : SidesInv (book.removeOrderFromBook o) := by
  unfold OrderBook.removeOrderFromBook
  split
  · refine ⟨?_, h.sellSorted, ?_⟩
    · exact List.Pairwise.sublist (removeOrderFromLevels_prices_sublist _ _ _) h.buySorted
    · intro bl hbl sl hsl
      have hblp : bl.price ∈ sidePrices book.buyLevels :=
        (removeOrderFromLevels_prices_sublist o.price o.orderId book.buyLevels).mem
          (List.mem_map_of_mem PriceLevel.price hbl)
      obtain ⟨bl0, hbl0, hbl0p⟩ := List.mem_map.mp hblp
      rw [← hbl0p]
      exact h.noCross bl0 hbl0 sl hsl
  · refine ⟨h.buySorted, ?_, ?_⟩
    · exact List.Pairwise.sublist (removeOrderFromLevels_prices_sublist _ _ _) h.sellSorted
    · intro bl hbl sl hsl
      have hslp : sl.price ∈ sidePrices book.sellLevels :=
        (removeOrderFromLevels_prices_sublist o.price o.orderId book.sellLevels).mem
          (List.mem_map_of_mem PriceLevel.price hsl)
      obtain ⟨sl0, hsl0, hsl0p⟩ := List.mem_map.mp hslp
      rw [← hsl0p]
      exact h.noCross bl hbl sl0 hsl0

theorem cancelOrder_sidesInv (book : OrderBook) (oid : String) (now : Nat)
    (h : SidesInv book) : SidesInv (book.cancelOrder oid now).1 := by
  unfold OrderBook.cancelOrder
  rcases mapFind book.orderMap oid with _ | order
  · exact h
  · simp only
    split
    · exact h
    · exact removeOrderFromBook_sidesInv book order h

theorem expirePendingOrders_sidesInv (book : OrderBook) (now : Nat)
    (h : SidesInv book) : SidesInv (book.expirePendingOrders now).1 := by
  unfold OrderBook.expirePendingOrders
  simp only
  generalize (List.map Prod.snd
    (List.filter (fun kv => expiryEligible now kv.2) book.orderMap)) = L
  induction L generalizing book with
  | nil => exact h
  | cons a L ih => exact ih _ (removeOrderFromBook_sidesInv book a h)

theorem reachable_sidesInv (s : EngineState) (hs : ReachableState s) :
    SidesInv s.book := by
  induction hs with
  | init =>
    exact ⟨List.Pairwise.nil, List.Pairwise.nil,
      by intro bl hbl; simp [initState, emptyBook] at hbl⟩
  | @step s op hs hv ih =>
    rcases op with ⟨ty, sd, p, q, tif, trader, instr, oid, t⟩ | ⟨oid, t⟩ | t
    · have hq : ¬ (mkOrder ty sd p q tif trader instr oid t).remainingQuantity = 0 := by
        simp only [Op.valid] at hv
        simp [mkOrder]
        omega
      exact addOrder_sidesInv s.book _ hq ih
    · exact cancelOrder_sidesInv s.book oid t ih
    · exact expirePendingOrders_sidesInv s.book t ih

end MatchingEngine

namespace MatchingEngine

/-- Claim C8: in every reachable engine state whose book has both a resting
bid and a resting ask, the best bid price (rbegin of the ascending buy map)
is strictly below the best ask price (begin of the ascending sell map): the
book is never crossed, because matching consumes every opposite level that
crosses before the remainder rests. -/
theorem c8_no_crossed_book (s : EngineState) (hs : ReachableState s)
    (hb : s.book.buyLevels ≠ []) (ha : s.book.sellLevels ≠ []) :
    s.book.getBestBidPrice < s.book.getBestAskPrice := by
  have h := reachable_sidesInv s hs
  unfold OrderBook.getBestBidPrice OrderBook.getBestAskPrice
  rw [List.getLast?_eq_getLast _ hb, List.head?_eq_head ha]
  exact h.noCross _ (List.getLast_mem hb) _ (List.head_mem ha)

set_option maxRecDepth 2000 in
theorem c8_witness :
    ReachableState (applyOp (applyOp initState
      (Op.submit OrderType.LIMIT OrderSide.BUY 10 1 TimeInForce.GTC "TA" 1 "A" 0))
      (Op.submit OrderType.LIMIT OrderSide.SELL 20 1 TimeInForce.GTC "TB" 1 "S" 0)) ∧
    (applyOp (applyOp initState
      (Op.submit OrderType.LIMIT OrderSide.BUY 10 1 TimeInForce.GTC "TA" 1 "A" 0))
      (Op.submit OrderType.LIMIT OrderSide.SELL 20 1 TimeInForce.GTC "TB" 1 "S" 0)).book.buyLevels ≠ [] ∧
    (applyOp (applyOp initState
      (Op.submit OrderType.LIMIT OrderSide.BUY 10 1 TimeInForce.GTC "TA" 1 "A" 0))
      (Op.submit OrderType.LIMIT OrderSide.SELL 20 1 TimeInForce.GTC "TB" 1 "S" 0)).book.sellLevels ≠ [] ∧
    (applyOp (applyOp initState
      (Op.submit OrderType.LIMIT OrderSide.BUY 10 1 TimeInForce.GTC "TA" 1 "A" 0))
      (Op.submit OrderType.LIMIT OrderSide.SELL 20 1 TimeInForce.GTC "TB" 1 "S" 0)).book.getBestBidPrice <
    (applyOp (applyOp initState
      (Op.submit OrderType.LIMIT OrderSide.BUY 10 1 TimeInForce.GTC "TA" 1 "A" 0))
      (Op.submit OrderType.LIMIT OrderSide.SELL 20 1 TimeInForce.GTC "TB" 1 "S" 0)).book.getBestAskPrice := by
  have hr : ReachableState (applyOp (applyOp initState
      (Op.submit OrderType.LIMIT OrderSide.BUY 10 1 TimeInForce.GTC "TA" 1 "A" 0))
      (Op.submit OrderType.LIMIT OrderSide.SELL 20 1 TimeInForce.GTC "TB" 1 "S" 0)) :=
    ReachableState.step _ (ReachableState.step _ ReachableState.init (by simp [Op.valid]))
      (by simp [Op.valid])
  have h20 : ¬ ((20:ℚ) ≤ 10) := by norm_num
  have hne : TimeInForce.GTC ≠ TimeInForce.IOC := by decide
  have hsd : OrderSide.SELL ≠ OrderSide.BUY := by decide
  have hb : (applyOp (applyOp initState
      (Op.submit OrderType.LIMIT OrderSide.BUY 10 1 TimeInForce.GTC "TA" 1 "A" 0))
      (Op.submit OrderType.LIMIT OrderSide.SELL 20 1 TimeInForce.GTC "TB" 1 "S" 0)).book.buyLevels ≠ [] := by
    simp [h20, hne, hsd, applyOp, initState, emptyBook, OrderBook.addOrder, matchLoop,
      crossesBool, addToBookLevels, PriceLevel.addOrder, mapInsert, pushRecentTrade, mkOrder]
  have ha : (applyOp (applyOp initState
      (Op.submit OrderType.LIMIT OrderSide.BUY 10 1 TimeInForce.GTC "TA" 1 "A" 0))
      (Op.submit OrderType.LIMIT OrderSide.SELL 20 1 TimeInForce.GTC "TB" 1 "S" 0)).book.sellLevels ≠ [] := by
    simp [h20, hne, hsd, applyOp, initState, emptyBook, OrderBook.addOrder, matchLoop,
      crossesBool, addToBookLevels, PriceLevel.addOrder, mapInsert, pushRecentTrade, mkOrder]
  exact ⟨hr, hb, ha, c8_no_crossed_book _ hr hb ha⟩

/-- Claim C4 (amended): in every reachable state the bids array of the depth
snapshot is the first five levels of the physically ascending buy map, i.e.
the five LOWEST bid prices in ascending order, and the asks array is the five
lowest ask prices in ascending order. -/
theorem c4_depth_ascending (s : EngineState) (hs : ReachableState s) :
    (buildBookDepth s.book).1.map Prod.fst = (sidePrices s.book.buyLevels).take 5 ∧
    (buildBookDepth s.book).2.map Prod.fst = (sidePrices s.book.sellLevels).take 5 ∧
    List.Pairwise (fun a b => a < b) (sidePrices s.book.buyLevels) ∧
    List.Pairwise (fun a b => a < b) (sidePrices s.book.sellLevels) := by
  have h := reachable_sidesInv s hs
  refine ⟨?_, ?_, h.buySorted, h.sellSorted⟩
  · simp [buildBookDepth, sidePrices, List.map_take, Function.comp_def]
  · simp [buildBookDepth, sidePrices, List.map_take, Function.comp_def]

theorem c4_depth_ascending_witness :
    ReachableState sixBidsRun ∧
    ((buildBookDepth sixBidsRun.book).1.map Prod.fst =
        (sidePrices sixBidsRun.book.buyLevels).take 5 ∧
      (buildBookDepth sixBidsRun.book).2.map Prod.fst =
        (sidePrices sixBidsRun.book.sellLevels).take 5 ∧
      List.Pairwise (fun a b => a < b) (sidePrices sixBidsRun.book.buyLevels) ∧
      List.Pairwise (fun a b => a < b) (sidePrices sixBidsRun.book.sellLevels)) := by
  have hr : ReachableState sixBidsRun := by
    have h1 : sixBidsRun = applyOp (applyOp (applyOp (applyOp (applyOp (applyOp initState
      (Op.submit OrderType.LIMIT OrderSide.BUY 6 1 TimeInForce.GTC "T" 1 "b6" 0))
      (Op.submit OrderType.LIMIT OrderSide.BUY 1 1 TimeInForce.GTC "T" 1 "b1" 0))
      (Op.submit OrderType.LIMIT OrderSide.BUY 3 1 TimeInForce.GTC "T" 1 "b3" 0))
      (Op.submit OrderType.LIMIT OrderSide.BUY 5 1 TimeInForce.GTC "T" 1 "b5" 0))
      (Op.submit OrderType.LIMIT OrderSide.BUY 2 1 TimeInForce.GTC "T" 1 "b2" 0))
      (Op.submit OrderType.LIMIT OrderSide.BUY 4 1 TimeInForce.GTC "T" 1 "b4" 0) := rfl
    rw [h1]
    exact ReachableState.step _ (ReachableState.step _ (ReachableState.step _
      (ReachableState.step _ (ReachableState.step _ (ReachableState.step _
        ReachableState.init (by simp [Op.valid])) (by simp [Op.valid]))
        (by simp [Op.valid])) (by simp [Op.valid])) (by simp [Op.valid]))
      (by simp [Op.valid])
  exact ⟨hr, c4_depth_ascending sixBidsRun hr⟩

end MatchingEngine

namespace MatchingEngine

/-- Claim C5: an IOC order that finds no crossing opposite level executes no
trade and is NOT added to the book: both side maps, the live-order index and
the trade list are exactly as before the submit. -/
theorem c5_ioc_no_match_no_rest (book : OrderBook) (incoming : Order)
    (htif : incoming.timeInForce = TimeInForce.IOC)
    (hnc : ∀ lvl ∈ (if incoming.side = OrderSide.BUY then book.sellLevels
      else book.buyLevels), crossesBool incoming lvl.price = false) :
    (book.addOrder incoming).book.buyLevels = book.buyLevels ∧
    (book.addOrder incoming).book.sellLevels = book.sellLevels ∧
    (book.addOrder incoming).book.orderMap = book.orderMap ∧
    (book.addOrder incoming).trades = [] := by
  rcases hside : incoming.side with _ | _
  · simp only [hside, if_pos rfl] at hnc
    rcases hopp : book.sellLevels with _ | ⟨lvl, rest⟩
    · have he := matchLoop_nil incoming book.orderMap
      simp [OrderBook.addOrder, hside, hopp, he, htif]
    · have he := matchLoop_nocross incoming lvl rest book.orderMap
        (hnc lvl (by simp [hopp]))
      simp [OrderBook.addOrder, hside, hopp, he, htif]
  · have hsd : incoming.side ≠ OrderSide.BUY := by simp [hside]
    simp only [hside] at hnc
    simp only [if_neg (by simp : ¬ OrderSide.SELL = OrderSide.BUY)] at hnc
    rcases hopp : book.buyLevels.reverse with _ | ⟨lvl, rest⟩
    · have hb : book.buyLevels = [] := by
        have := congrArg List.reverse hopp
        simpa using this
      have he := matchLoop_nil incoming book.orderMap
      simp [OrderBook.addOrder, hsd, hb, he, htif]
    · have hmem : lvl ∈ book.buyLevels := by
        have h1 : lvl ∈ book.buyLevels.reverse := by simp [hopp]
        simpa using h1
      have he := matchLoop_nocross incoming lvl rest book.orderMap (hnc lvl hmem)
      have hb : book.buyLevels = (lvl :: rest).reverse := by
        have := congrArg List.reverse hopp
        simpa using this
      simp [OrderBook.addOrder, hsd, hopp, he, htif, ← hb]

theorem c5_witness :
    ((⟨[], [⟨10, 7, [mkOrder OrderType.LIMIT OrderSide.SELL 10 7 TimeInForce.GTC "TS" 1 "S" 0]⟩],
        [("S", mkOrder OrderType.LIMIT OrderSide.SELL 10 7 TimeInForce.GTC "TS" 1 "S" 0)],
        [], 0, 0, 0, 0⟩ : OrderBook).addOrder
      (mkOrder OrderType.LIMIT OrderSide.BUY 9 5 TimeInForce.IOC "TB" 1 "B" 0)).book.buyLevels =
      (⟨[], [⟨10, 7, [mkOrder OrderType.LIMIT OrderSide.SELL 10 7 TimeInForce.GTC "TS" 1 "S" 0]⟩],
        [("S", mkOrder OrderType.LIMIT OrderSide.SELL 10 7 TimeInForce.GTC "TS" 1 "S" 0)],
        [], 0, 0, 0, 0⟩ : OrderBook).buyLevels ∧
    ((⟨[], [⟨10, 7, [mkOrder OrderType.LIMIT OrderSide.SELL 10 7 TimeInForce.GTC "TS" 1 "S" 0]⟩],
        [("S", mkOrder OrderType.LIMIT OrderSide.SELL 10 7 TimeInForce.GTC "TS" 1 "S" 0)],
        [], 0, 0, 0, 0⟩ : OrderBook).addOrder
      (mkOrder OrderType.LIMIT OrderSide.BUY 9 5 TimeInForce.IOC "TB" 1 "B" 0)).book.sellLevels =
      (⟨[], [⟨10, 7, [mkOrder OrderType.LIMIT OrderSide.SELL 10 7 TimeInForce.GTC "TS" 1 "S" 0]⟩],
        [("S", mkOrder OrderType.LIMIT OrderSide.SELL 10 7 TimeInForce.GTC "TS" 1 "S" 0)],
        [], 0, 0, 0, 0⟩ : OrderBook).sellLevels ∧
    ((⟨[], [⟨10, 7, [mkOrder OrderType.LIMIT OrderSide.SELL 10 7 TimeInForce.GTC "TS" 1 "S" 0]⟩],
        [("S", mkOrder OrderType.LIMIT OrderSide.SELL 10 7 TimeInForce.GTC "TS" 1 "S" 0)],
        [], 0, 0, 0, 0⟩ : OrderBook).addOrder
      (mkOrder OrderType.LIMIT OrderSide.BUY 9 5 TimeInForce.IOC "TB" 1 "B" 0)).book.orderMap =
      (⟨[], [⟨10, 7, [mkOrder OrderType.LIMIT OrderSide.SELL 10 7 TimeInForce.GTC "TS" 1 "S" 0]⟩],
        [("S", mkOrder OrderType.LIMIT OrderSide.SELL 10 7 TimeInForce.GTC "TS" 1 "S" 0)],
        [], 0, 0, 0, 0⟩ : OrderBook).orderMap ∧
    ((⟨[], [⟨10, 7, [mkOrder OrderType.LIMIT OrderSide.SELL 10 7 TimeInForce.GTC "TS" 1 "S" 0]⟩],
        [("S", mkOrder OrderType.LIMIT OrderSide.SELL 10 7 TimeInForce.GTC "TS" 1 "S" 0)],
        [], 0, 0, 0, 0⟩ : OrderBook).addOrder
      (mkOrder OrderType.LIMIT OrderSide.BUY 9 5 TimeInForce.IOC "TB" 1 "B" 0)).trades = [] := by
  refine c5_ioc_no_match_no_rest _ _ rfl ?_
  intro lvl hl
  simp [mkOrder] at hl
  subst hl
  decide

end MatchingEngine

namespace MatchingEngine

/-- Claim C1: price-time priority. General part: whenever the best opposite
level (begin() for an incoming BUY, rbegin() for an incoming SELL, exactly as
matchOrder selects it) crosses the incoming order's limit and holds resting
orders, the FIRST executed trade is against the HEAD (oldest) resting order
of that level, for quantity min(incoming remaining, resting remaining) at the
level's price. Scenario part: with buys A then B resting at the same price
and a crossing SELL of A's size, exactly A trades (in full) and B stays
resting untouched at the head of the level. -/
theorem c1_price_time_priority (book : OrderBook) (incoming : Order)
    (lvl : PriceLevel) (resting : Order) (more : List Order)
    (hbest : bestOppositeLevel book incoming.side = some lvl)
    (hcross : crossesBool incoming lvl.price = true)
    (hords : lvl.orders = resting :: more)
    (hrem : ¬ incoming.remainingQuantity = 0) :
    ((book.addOrder incoming).trades.head? =
      some (mkTradeFor incoming resting
        (min incoming.remainingQuantity resting.remainingQuantity) lvl.price)) ∧
    (timePriorityRun.tradeLog.map (fun t => (t.buyOrderId, t.sellOrderId, t.quantity)) =
        [("A", "C", 50)] ∧
      timePriorityRun.book.buyLevels.map
        (fun l => l.orders.map (fun o => (o.orderId, o.remainingQuantity))) = [[("B", 50)]]) := by
  constructor
  · have hcross2 : ¬ crossesBool incoming lvl.price = false := by simp [hcross]
    rcases hside : incoming.side with _ | _
    · rw [hside] at hbest
      rcases hopp : book.sellLevels with _ | ⟨lvl2, rest2⟩
      · simp [bestOppositeLevel, hopp] at hbest
      · simp only [bestOppositeLevel, if_pos rfl, hopp, List.head?_cons,
          Option.some.injEq, eq_self_iff_true, if_true] at hbest
        subst hbest
        have he := matchLoop_first_trade incoming _ rest2 book.orderMap hcross2
          resting more hords hrem
        simp [OrderBook.addOrder, hside, hopp, he]
    · rw [hside] at hbest
      simp only [bestOppositeLevel] at hbest
      rw [if_neg (by simp : ¬ OrderSide.SELL = OrderSide.BUY)] at hbest
      have hrevh : book.buyLevels.reverse.head? = some lvl := by
        rw [List.head?_reverse]
        exact hbest
      rcases hopp : book.buyLevels.reverse with _ | ⟨lvl2, rest2⟩
      · rw [hopp] at hrevh
        simp at hrevh
      · rw [hopp] at hrevh
        simp only [List.head?_cons, Option.some.injEq] at hrevh
        subst hrevh
        have hsd : incoming.side ≠ OrderSide.BUY := by simp [hside]
        have he := matchLoop_first_trade incoming _ rest2 book.orderMap hcross2
          resting more hords hrem
        simp [OrderBook.addOrder, hsd, hopp, he]
  · constructor
    · simp [timePriorityRun, applyOp, initState, emptyBook, OrderBook.addOrder, matchLoop,
        mkOrder, crossesBool, addToBookLevels, PriceLevel.addOrder, mapInsert, mapUpdate,
        mapErase, Order.fillWithTradeContext, Order.fill, mkTradeFor, pushRecentTrade,
        PriceLevel.removeOrder, removeFirstOrder, generateTradeId]
    · simp [timePriorityRun, applyOp, initState, emptyBook, OrderBook.addOrder, matchLoop,
        mkOrder, crossesBool, addToBookLevels, PriceLevel.addOrder, mapInsert, mapUpdate,
        mapErase, Order.fillWithTradeContext, Order.fill, mkTradeFor, pushRecentTrade,
        PriceLevel.removeOrder, removeFirstOrder, generateTradeId]

end MatchingEngine

namespace MatchingEngine

theorem c1_witness :
    (bestOppositeLevel
        ⟨[], [⟨10, 7, [mkOrder OrderType.LIMIT OrderSide.SELL 10 7 TimeInForce.GTC "TS" 1 "S" 0]⟩],
          [("S", mkOrder OrderType.LIMIT OrderSide.SELL 10 7 TimeInForce.GTC "TS" 1 "S" 0)],
          [], 0, 0, 0, 0⟩
        (mkOrder OrderType.LIMIT OrderSide.BUY 10 5 TimeInForce.GTC "TB" 1 "B" 0).side =
      some ⟨10, 7, [mkOrder OrderType.LIMIT OrderSide.SELL 10 7 TimeInForce.GTC "TS" 1 "S" 0]⟩) ∧
    (crossesBool (mkOrder OrderType.LIMIT OrderSide.BUY 10 5 TimeInForce.GTC "TB" 1 "B" 0)
      (PriceLevel.mk 10 7 [mkOrder OrderType.LIMIT OrderSide.SELL 10 7 TimeInForce.GTC "TS" 1 "S" 0]).price = true) ∧
    (¬ (mkOrder OrderType.LIMIT OrderSide.BUY 10 5 TimeInForce.GTC "TB" 1 "B" 0).remainingQuantity = 0) ∧
    (((⟨[], [⟨10, 7, [mkOrder OrderType.LIMIT OrderSide.SELL 10 7 TimeInForce.GTC "TS" 1 "S" 0]⟩],
          [("S", mkOrder OrderType.LIMIT OrderSide.SELL 10 7 TimeInForce.GTC "TS" 1 "S" 0)],
          [], 0, 0, 0, 0⟩ : OrderBook).addOrder
        (mkOrder OrderType.LIMIT OrderSide.BUY 10 5 TimeInForce.GTC "TB" 1 "B" 0)).trades.head? =
      some (mkTradeFor (mkOrder OrderType.LIMIT OrderSide.BUY 10 5 TimeInForce.GTC "TB" 1 "B" 0)
        (mkOrder OrderType.LIMIT OrderSide.SELL 10 7 TimeInForce.GTC "TS" 1 "S" 0)
        (min (mkOrder OrderType.LIMIT OrderSide.BUY 10 5 TimeInForce.GTC "TB" 1 "B" 0).remainingQuantity
          (mkOrder OrderType.LIMIT OrderSide.SELL 10 7 TimeInForce.GTC "TS" 1 "S" 0).remainingQuantity)
        (PriceLevel.mk 10 7 [mkOrder OrderType.LIMIT OrderSide.SELL 10 7 TimeInForce.GTC "TS" 1 "S" 0]).price) ∧
      (timePriorityRun.tradeLog.map (fun t => (t.buyOrderId, t.sellOrderId, t.quantity)) =
          [("A", "C", 50)] ∧
        timePriorityRun.book.buyLevels.map
          (fun l => l.orders.map (fun o => (o.orderId, o.remainingQuantity))) = [[("B", 50)]])) := by
  refine ⟨by decide, by decide, by decide, ?_⟩
  exact c1_price_time_priority _ _ _ _ _ (by decide) (by decide) rfl (by decide)

end MatchingEngine

namespace MatchingEngine

theorem addToBookLevels_mem (o : Order) (side : List PriceLevel) :
    ∃ lvl ∈ addToBookLevels o side, lvl.price = o.price ∧ o ∈ lvl.orders := by
  induction side with
  | nil =>
    refine ⟨PriceLevel.addOrder ⟨o.price, 0, []⟩ o, by simp [addToBookLevels], rfl, ?_⟩
    simp [PriceLevel.addOrder]
  | cons lvl rest ih =>
    simp only [addToBookLevels]
    split
    · exact ⟨PriceLevel.addOrder ⟨o.price, 0, []⟩ o, by simp, rfl,
        by simp [PriceLevel.addOrder]⟩
    · split
      · rename_i heq
        exact ⟨PriceLevel.addOrder lvl o, by simp, by simp [heq],
          by simp [PriceLevel.addOrder]⟩
      · obtain ⟨lvl2, hmem, hp, ho⟩ := ih
        exact ⟨lvl2, by simp [hmem], hp, ho⟩

theorem levelsOrders_reverse_sum (side : List PriceLevel) :
    ((levelsOrders side.reverse).map Order.remainingQuantity).sum =
      ((levelsOrders side).map Order.remainingQuantity).sum := by
  induction side with
  | nil => rfl
  | cons lvl rest ih =>
    simp only [levelsOrders, List.reverse_cons, List.map_append, List.flatten_append,
      List.sum_append, List.map_cons, List.flatten_cons] at ih ⊢
    simp at ih ⊢
    omega

/-- Claim C10: the matching loop compares the best opposite price against the
order's stored price field for every order type, so a price-0 (MARKET
sentinel) order behaves asymmetrically. Part 1: a SELL at price 0 crosses
every (nonnegatively priced) resting buy level, and with enough remaining
quantity it consumes the entire buy side. Part 2: a BUY at price 0 against
positively priced asks matches nothing, and when its time-in-force is not
IOC it rests in the buy side at a price level of 0. -/
theorem c10_market_sentinel_asymmetry :
    (∀ (book : OrderBook) (incoming : Order),
      incoming.side = OrderSide.SELL → incoming.price = 0 →
      (∀ lvl ∈ book.buyLevels, 0 ≤ lvl.price) →
      (∀ lvl ∈ book.buyLevels, lvl.orders ≠ []) →
      (∀ lvl ∈ book.buyLevels, ∀ o ∈ lvl.orders, 0 < o.remainingQuantity) →
      ((levelsOrders book.buyLevels).map Order.remainingQuantity).sum ≤
        incoming.remainingQuantity →
      (book.addOrder incoming).book.buyLevels = []) ∧
    (∀ (book : OrderBook) (incoming : Order),
      incoming.side = OrderSide.BUY → incoming.price = 0 →
      incoming.timeInForce ≠ TimeInForce.IOC →
      (∀ lvl ∈ book.sellLevels, 0 < lvl.price) →
      (book.addOrder incoming).trades = [] ∧
      ∃ lvl ∈ (book.addOrder incoming).book.buyLevels,
        lvl.price = 0 ∧ incoming ∈ lvl.orders) := by
  constructor
  · intro book incoming hside hprice h0 hne hpos hq
    have h1 := (addOrder_sell_sides book incoming hside).1
    rw [h1]
    have hsweep := matchLoop_sweep incoming book.buyLevels.reverse book.orderMap
      (by
        intro lvl hmem
        have h2 := h0 lvl (List.mem_reverse.mp hmem)
        simp [crossesBool, hside, hprice, h2])
      (by
        intro lvl hmem
        exact hne lvl (List.mem_reverse.mp hmem))
      (by
        intro lvl hmem o ho
        exact hpos lvl (List.mem_reverse.mp hmem) o ho)
      (by rw [levelsOrders_reverse_sum]; exact hq)
    rw [hsweep]
    rfl
  · intro book incoming hside hprice htif hpos
    have hid : matchLoop incoming (if incoming.side = OrderSide.BUY then book.sellLevels
        else book.buyLevels) book.orderMap =
        ⟨incoming, (if incoming.side = OrderSide.BUY then book.sellLevels
          else book.buyLevels), book.orderMap, [], false⟩ := by
      rw [if_pos hside]
      rcases hopp : book.sellLevels with _ | ⟨lvlh, rest⟩
      · exact matchLoop_nil incoming book.orderMap
      · refine matchLoop_nocross incoming lvlh rest book.orderMap ?_
        have h2 := hpos lvlh (by simp [hopp])
        simp [crossesBool, hside, hprice]
        linarith
    rw [if_pos hside] at hid
    constructor
    · simp [OrderBook.addOrder, hside, hid]
    · have h3 : (book.addOrder incoming).book.buyLevels =
          addToBookLevels incoming book.buyLevels := by
        have h4 := (addOrder_buy_sides book incoming hside).2
        rw [h4, hid]
        simp [htif]
      rw [h3]
      obtain ⟨lvl, hmem, hp, ho⟩ := addToBookLevels_mem incoming book.buyLevels
      exact ⟨lvl, hmem, by rw [hp, hprice], ho⟩

end MatchingEngine

namespace MatchingEngine

theorem c10_witness :
    ((⟨[⟨5, 3, [mkOrder OrderType.LIMIT OrderSide.BUY 5 3 TimeInForce.GTC "TB" 1 "B1" 0]⟩], [],
        [("B1", mkOrder OrderType.LIMIT OrderSide.BUY 5 3 TimeInForce.GTC "TB" 1 "B1" 0)],
        [], 0, 0, 0, 0⟩ : OrderBook).addOrder
      (mkOrder OrderType.MARKET OrderSide.SELL 0 3 TimeInForce.GTC "TS" 1 "S1" 0)).book.buyLevels
        = [] ∧
    ((⟨[], [⟨10, 7, [mkOrder OrderType.LIMIT OrderSide.SELL 10 7 TimeInForce.GTC "TS" 1 "S2" 0]⟩],
        [("S2", mkOrder OrderType.LIMIT OrderSide.SELL 10 7 TimeInForce.GTC "TS" 1 "S2" 0)],
        [], 0, 0, 0, 0⟩ : OrderBook).addOrder
      (mkOrder OrderType.MARKET OrderSide.BUY 0 4 TimeInForce.GTC "TB" 1 "B2" 0)).trades = [] ∧
    ∃ lvl ∈ ((⟨[],
        [⟨10, 7, [mkOrder OrderType.LIMIT OrderSide.SELL 10 7 TimeInForce.GTC "TS" 1 "S2" 0]⟩],
        [("S2", mkOrder OrderType.LIMIT OrderSide.SELL 10 7 TimeInForce.GTC "TS" 1 "S2" 0)],
        [], 0, 0, 0, 0⟩ : OrderBook).addOrder
      (mkOrder OrderType.MARKET OrderSide.BUY 0 4 TimeInForce.GTC "TB" 1 "B2" 0)).book.buyLevels,
      lvl.price = 0 ∧
        mkOrder OrderType.MARKET OrderSide.BUY 0 4 TimeInForce.GTC "TB" 1 "B2" 0 ∈ lvl.orders := by
  refine ⟨c10_market_sentinel_asymmetry.1 _ _ rfl rfl ?_ ?_ ?_ ?_, ?_⟩
  · intro lvl hl
    simp only [List.mem_singleton] at hl
    subst hl
    norm_num
  · intro lvl hl
    simp only [List.mem_singleton] at hl
    subst hl
    simp
  · intro lvl hl o ho
    simp only [List.mem_singleton] at hl
    subst hl
    simp only [List.mem_singleton] at ho
    subst ho
    simp [mkOrder]
  · simp [levelsOrders, mkOrder]
  · have h2 := c10_market_sentinel_asymmetry.2
      (⟨[], [⟨10, 7, [mkOrder OrderType.LIMIT OrderSide.SELL 10 7 TimeInForce.GTC "TS" 1 "S2" 0]⟩],
        [("S2", mkOrder OrderType.LIMIT OrderSide.SELL 10 7 TimeInForce.GTC "TS" 1 "S2" 0)],
        [], 0, 0, 0, 0⟩ : OrderBook)
      (mkOrder OrderType.MARKET OrderSide.BUY 0 4 TimeInForce.GTC "TB" 1 "B2" 0)
      rfl rfl (by decide) ?_
    · exact ⟨h2.1, h2.2⟩
    · intro lvl hl
      simp only [List.mem_singleton] at hl
      subst hl
      norm_num

end MatchingEngine

namespace MatchingEngine

theorem hexDigit_shape (k : Nat) (h : k < 16) :
    (48 ≤ (hexDigit k).toNat ∧ (hexDigit k).toNat ≤ 57) ∨
      (65 ≤ (hexDigit k).toNat ∧ (hexDigit k).toNat ≤ 70) := by
  interval_cases k <;> decide

theorem toHex8_isUpperHex8 (n : Nat) : isUpperHex8 (toHex8 n) := by
  constructor
  · simp [toHex8, String.length]
  · intro c hc
    have hc2 : c ∈ (List.range 8).map (fun i => hexDigit (n / 16 ^ (7 - i) % 16)) := hc
    simp only [List.mem_map, List.mem_range] at hc2
    obtain ⟨i, hi, rfl⟩ := hc2
    exact hexDigit_shape _ (Nat.mod_lt _ (by norm_num))

theorem isUpperHex8_ilpSafe (s : String) (h : isUpperHex8 s) : ilpSafe s := by
  obtain ⟨-, h2⟩ := h
  cases s with
  | mk l =>
    show String.mk (l.map _) = String.mk l
    congr 1
    induction l with
    | nil => rfl
    | cons c cs ih =>
      have hc := h2 c (by simp)
      have hcs : ∀ x ∈ (String.mk cs).data, _ := fun x hx => h2 x (by simp; exact Or.inr hx)
      simp only [List.map_cons, ih hcs, List.cons.injEq, and_true]
      rcases hc with ⟨h3, h4⟩ | ⟨h3, h4⟩ <;>
      · rw [if_neg]
        rintro (rfl | rfl | rfl) <;> revert h3 h4 <;> decide

end MatchingEngine

namespace MatchingEngine

theorem sanitizeTag_hex (tid : String) :
    sanitizeTag (computeDeviceIdHash tid) = computeDeviceIdHash tid :=
  isUpperHex8_ilpSafe _ (toHex8_isUpperHex8 _)

/-- Claim C9: every TRADE_MATCH record emitted for a trade executed by a
submit carries `order_type` MATCH, `order_status_event` TRADE_MATCH, `side`
equal to the aggressor (incoming) side, `order_id` the (sanitized) buy-side
order id, `user_id` the (sanitized) buyer trader id, and `device_id_hash`
the FNV-1a 32-bit fingerprint - eight uppercase hex digits - of the
aggressor's trader id; the buy-side order id is the incoming order's id
exactly when the incoming order is the buyer. -/
theorem c9_trade_match_record (book : OrderBook) (incoming : Order) :
    ∀ t ∈ (book.addOrder incoming).trades,
      (logTrade t).order_type = "MATCH" ∧
      (logTrade t).order_status_event = "TRADE_MATCH" ∧
      (logTrade t).side = sideStr incoming.side ∧
      (ilpSafe t.buyOrderId → (logTrade t).order_id = t.buyOrderId) ∧
      (if incoming.side = OrderSide.BUY then t.buyOrderId else t.sellOrderId) =
        incoming.orderId ∧
      (ilpSafe t.buyerUserId → (logTrade t).user_id = t.buyerUserId) ∧
      (logTrade t).device_id_hash = computeDeviceIdHash incoming.traderId ∧
      isUpperHex8 (logTrade t).device_id_hash := by
  intro t ht
  have htr : t ∈ (matchLoop incoming
      (if incoming.side = OrderSide.BUY then book.sellLevels
        else book.buyLevels.reverse) book.orderMap).trades := by
    by_cases hb : incoming.side = OrderSide.BUY <;>
      simpa [OrderBook.addOrder, hb] using ht
  obtain ⟨ha, hid, huid⟩ := matchLoop_trades_aggressor incoming _ _ t htr
  have hdev : (logTrade t).device_id_hash = computeDeviceIdHash incoming.traderId := by
    simp only [logTrade, ha]
    rw [← ha, huid, sanitizeTag_hex]
  refine ⟨rfl, rfl, ?_, ?_, ?_, ?_, hdev, ?_⟩
  · simp [logTrade, ha]
  · intro hs
    exact hs
  · rw [← ha]
    exact hid
  · intro hs
    exact hs
  · rw [hdev]
    exact toHex8_isUpperHex8 _

end MatchingEngine

namespace MatchingEngine

theorem c9_witness :
    c9Trade ∈ (c9Book.addOrder c9Incoming).trades ∧
    ilpSafe c9Trade.buyOrderId ∧ ilpSafe c9Trade.buyerUserId ∧
    (logTrade c9Trade).order_type = "MATCH" ∧
    (logTrade c9Trade).order_status_event = "TRADE_MATCH" ∧
    (logTrade c9Trade).side = sideStr c9Incoming.side ∧
    (logTrade c9Trade).order_id = c9Trade.buyOrderId ∧
    c9Trade.buyOrderId = c9Incoming.orderId ∧
    (logTrade c9Trade).user_id = c9Trade.buyerUserId ∧
    (logTrade c9Trade).device_id_hash = computeDeviceIdHash c9Incoming.traderId ∧
    isUpperHex8 (logTrade c9Trade).device_id_hash := by
  have h10 : ((10 : ℚ) ≤ 10) := by norm_num
  have hmem : c9Trade ∈ (c9Book.addOrder c9Incoming).trades := by
    simp [c9Book, c9Incoming, c9Trade, OrderBook.addOrder, matchLoop, mkOrder,
      crossesBool, mkTradeFor, generateTradeId, Order.fillWithTradeContext, Order.fill,
      mapUpdate, mapInsert, PriceLevel.removeOrder, removeFirstOrder, addToBookLevels,
      PriceLevel.addOrder, pushRecentTrade, h10, generateTradeId]
    decide
  have h := c9_trade_match_record c9Book c9Incoming c9Trade hmem
  obtain ⟨h1, h2, h3, h4, h5, h6, h7, h8⟩ := h
  have hso : ilpSafe c9Trade.buyOrderId := by unfold ilpSafe; decide
  have hsu : ilpSafe c9Trade.buyerUserId := by unfold ilpSafe; decide
  refine ⟨hmem, hso, hsu, h1, h2, h3, h4 hso, ?_, h6 hsu, h7, h8⟩
  have h5b : (if c9Incoming.side = OrderSide.BUY then c9Trade.buyOrderId
      else c9Trade.sellOrderId) = c9Incoming.orderId := h5
  simpa [c9Incoming, mkOrder] using h5b

end MatchingEngine

namespace MatchingEngine

theorem mapErase_subset (m : List (String × Order)) (id : String) :
    ∀ kv ∈ mapErase m id, kv ∈ m := by
  induction m with
  | nil => simp [mapErase]
  | cons kv0 rest ih =>
    intro kv hkv
    simp only [mapErase] at hkv
    split at hkv
    · simp [hkv]
    · rcases List.mem_cons.mp hkv with rfl | h2
      · simp
      · simp [ih kv h2]

theorem mapErase_fst_sublist (m : List (String × Order)) (id : String) :
    ((mapErase m id).map Prod.fst).Sublist (m.map Prod.fst) := by
  induction m with
  | nil => simp [mapErase]
  | cons kv0 rest ih =>
    simp only [mapErase]
    split
    · exact (List.sublist_cons_self _ _)
    · simpa using List.Sublist.cons₂ kv0.1 ih

theorem mapFind_eq_none_iff (m : List (String × Order)) (id : String) :
    mapFind m id = none ↔ id ∉ m.map Prod.fst := by
  induction m with
  | nil => simp [mapFind]
  | cons kv0 rest ih =>
    simp only [mapFind, List.map_cons, List.mem_cons]
    split
    · rename_i h
      subst h
      simp
    · rename_i h
      simp [ih]
      intro h2
      exact fun h3 => h (h3 ▸ rfl)

theorem mapFind_mapErase_self (m : List (String × Order)) (id : String)
    (hnd : (m.map Prod.fst).Nodup) : mapFind (mapErase m id) id = none := by
  induction m with
  | nil => simp [mapErase, mapFind]
  | cons kv0 rest ih =>
    simp only [List.map_cons, List.nodup_cons] at hnd
    simp only [mapErase]
    split
    · rename_i h
      rw [mapFind_eq_none_iff]
      rw [← h]
      exact hnd.1
    · rename_i h
      simp only [mapFind]
      rw [if_neg h]
      exact ih hnd.2

theorem mapFind_mapErase_other (m : List (String × Order)) (id id2 : String)
    (h : id2 ≠ id) : mapFind (mapErase m id) id2 = mapFind m id2 := by
  induction m with
  | nil => simp [mapErase]
  | cons kv0 rest ih =>
    simp only [mapErase, mapFind]
    split
    · rename_i h0
      rw [if_neg]
      rw [h0]
      exact fun h2 => h h2.symm
    · simp only [mapFind]
      split
      · rfl
      · exact ih

theorem mapErase_key_ne (m : List (String × Order)) (id : String)
    (hnd : (m.map Prod.fst).Nodup) : ∀ kv ∈ mapErase m id, kv.1 ≠ id := by
  induction m with
  | nil => simp [mapErase]
  | cons kv0 rest ih =>
    simp only [List.map_cons, List.nodup_cons] at hnd
    intro kv hkv
    simp only [mapErase] at hkv
    split at hkv
    · rename_i h
      intro h2
      refine hnd.1 ?_
      have h3 : kv.1 ∈ List.map Prod.fst rest := List.mem_map_of_mem Prod.fst hkv
      rw [h2] at h3
      rw [h]
      exact h3
    · rename_i h
      rcases List.mem_cons.mp hkv with rfl | h2
      · exact h
      · exact ih hnd.2 kv h2

theorem mapFind_of_mem (m : List (String × Order)) (kv : String × Order)
    (hnd : (m.map Prod.fst).Nodup) (hkv : kv ∈ m) : mapFind m kv.1 = some kv.2 := by
  induction m with
  | nil => simp at hkv
  | cons kv0 rest ih =>
    simp only [List.map_cons, List.nodup_cons] at hnd
    rcases List.mem_cons.mp hkv with rfl | h2
    · simp [mapFind]
    · simp only [mapFind]
      rw [if_neg]
      · exact ih hnd.2 h2
      · intro h3
        exact hnd.1 (h3 ▸ List.mem_map_of_mem Prod.fst h2)

theorem mapFind_mem (m : List (String × Order)) (id : String) (o : Order)
    (h : mapFind m id = some o) : (id, o) ∈ m ∨ ∃ kv ∈ m, kv.1 = id ∧ kv.2 = o := by
  induction m with
  | nil => simp [mapFind] at h
  | cons kv0 rest ih =>
    simp only [mapFind] at h
    split at h
    · rename_i h2
      right
      exact ⟨kv0, by simp, h2, by injection h⟩
    · rcases ih h with h3 | ⟨kv, hm, h4, h5⟩
      · exact Or.inl (by simp [h3])
      · exact Or.inr ⟨kv, by simp [hm], h4, h5⟩

end MatchingEngine

namespace MatchingEngine

theorem removeFirstOrder_sublist (id : String) (l : List Order) :
    (removeFirstOrder id l).1.Sublist l := by
  induction l with
  | nil => simp [removeFirstOrder]
  | cons o rest ih =>
    simp only [removeFirstOrder]
    split
    · exact List.sublist_cons_self _ _
    · exact List.Sublist.cons₂ o ih

theorem removeFirstOrder_none (id : String) (l : List Order)
    (h : (removeFirstOrder id l).2 = none) : ∀ o ∈ l, o.orderId ≠ id := by
  induction l with
  | nil => simp
  | cons o rest ih =>
    simp only [removeFirstOrder] at h
    split at h
    · simp at h
    · rename_i h2
      intro o2 ho2
      rcases List.mem_cons.mp ho2 with rfl | h3
      · exact h2
      · exact ih h o2 h3

theorem removeFirstOrder_no_id (id : String) (l : List Order)
    (hnd : (l.map Order.orderId).Nodup) :
    ∀ o ∈ (removeFirstOrder id l).1, o.orderId ≠ id := by
  induction l with
  | nil => simp [removeFirstOrder]
  | cons o rest ih =>
    simp only [List.map_cons, List.nodup_cons] at hnd
    simp only [removeFirstOrder]
    split
    · rename_i h
      intro o2 ho2 h2
      refine hnd.1 ?_
      have h3 : o2.orderId ∈ List.map Order.orderId rest :=
        List.mem_map_of_mem Order.orderId ho2
      rw [h2] at h3
      rw [h]
      exact h3
    · rename_i h
      intro o2 ho2
      rcases List.mem_cons.mp ho2 with rfl | h3
      · exact h
      · exact ih hnd.2 o2 h3

theorem removeFirstOrder_keep (id : String) (l : List Order) (o : Order)
    (ho : o ∈ l) (hne : o.orderId ≠ id) : o ∈ (removeFirstOrder id l).1 := by
  induction l with
  | nil => simp at ho
  | cons o0 rest ih =>
    simp only [removeFirstOrder]
    split
    · rename_i h
      rcases List.mem_cons.mp ho with rfl | h2
      · exact absurd h hne
      · exact h2
    · rcases List.mem_cons.mp ho with rfl | h2
      · simp
      · simp [ih h2]

theorem PriceLevel.removeOrder_orders_sublist (lvl : PriceLevel) (id : String) :
    (lvl.removeOrder id).orders.Sublist lvl.orders := by
  simp only [PriceLevel.removeOrder]
  split
  · rename_i orders' o heq
    have h2 : orders' = (removeFirstOrder id lvl.orders).1 := by
      rw [heq]
    rw [h2]
    exact removeFirstOrder_sublist id lvl.orders
  · exact List.Sublist.refl _

theorem PriceLevel.removeOrder_no_id (lvl : PriceLevel) (id : String)
    (hnd : (lvl.orders.map Order.orderId).Nodup) :
    ∀ o ∈ (lvl.removeOrder id).orders, o.orderId ≠ id := by
  simp only [PriceLevel.removeOrder]
  split
  · rename_i orders' o heq
    have h2 : orders' = (removeFirstOrder id lvl.orders).1 := by
      rw [heq]
    rw [h2]
    exact removeFirstOrder_no_id id lvl.orders hnd
  · rename_i l o heq
    have h2 : (removeFirstOrder id lvl.orders).2 = none := by
      rw [heq]
    exact removeFirstOrder_none id lvl.orders h2

theorem PriceLevel.removeOrder_keep (lvl : PriceLevel) (id : String) (o : Order)
    (ho : o ∈ lvl.orders) (hne : o.orderId ≠ id) : o ∈ (lvl.removeOrder id).orders := by
  simp only [PriceLevel.removeOrder]
  split
  · rename_i orders' o2 heq
    have h2 : orders' = (removeFirstOrder id lvl.orders).1 := by
      rw [heq]
    rw [h2]
    exact removeFirstOrder_keep id lvl.orders o ho hne
  · exact ho

end MatchingEngine

namespace MatchingEngine

theorem removeOrderFromLevels_levelsOrders_sublist (p : Rat) (id : String)
    (side : List PriceLevel) :
    (levelsOrders (removeOrderFromLevels p id side)).Sublist (levelsOrders side) := by
  induction side with
  | nil => simp [removeOrderFromLevels, levelsOrders]
  | cons lvl rest ih =>
    simp only [removeOrderFromLevels]
    split
    · split
      · simp only [levelsOrders, List.map_cons, List.flatten_cons]
        exact List.sublist_append_right _ _
      · simp only [levelsOrders, List.map_cons, List.flatten_cons]
        exact List.Sublist.append (PriceLevel.removeOrder_orders_sublist lvl id)
          (List.Sublist.refl _)
    · simp only [levelsOrders, List.map_cons, List.flatten_cons]
      exact List.Sublist.append (List.Sublist.refl _) ih

theorem removeOrderFromLevels_level_subset (p : Rat) (id : String)
    (side : List PriceLevel) :
    ∀ lvl2 ∈ removeOrderFromLevels p id side,
      ∃ lvl ∈ side, lvl2.price = lvl.price ∧ ∀ o ∈ lvl2.orders, o ∈ lvl.orders := by
  induction side with
  | nil => simp [removeOrderFromLevels]
  | cons lvl rest ih =>
    simp only [removeOrderFromLevels]
    split
    · split
      · intro lvl2 h2
        exact ⟨lvl2, List.mem_cons_of_mem lvl h2, rfl, fun o ho => ho⟩
      · intro lvl2 h2
        rcases List.mem_cons.mp h2 with rfl | h3
        · refine ⟨lvl, List.mem_cons_self _ _, ?_, ?_⟩
          · simp [PriceLevel.removeOrder_price]
          · intro o ho
            exact (PriceLevel.removeOrder_orders_sublist lvl id).mem ho
        · exact ⟨lvl2, List.mem_cons_of_mem lvl h3, rfl, fun o ho => ho⟩
    · intro lvl2 h2
      rcases List.mem_cons.mp h2 with rfl | h3
      · exact ⟨lvl2, List.mem_cons_self _ _, rfl, fun o ho => ho⟩
      · obtain ⟨lvl3, h4, h5, h6⟩ := ih lvl2 h3
        exact ⟨lvl3, List.mem_cons_of_mem lvl h4, h5, h6⟩

theorem removeOrderFromLevels_nonempty (p : Rat) (id : String)
    (side : List PriceLevel) (h : ∀ lvl ∈ side, lvl.orders ≠ []) :
    ∀ lvl2 ∈ removeOrderFromLevels p id side, lvl2.orders ≠ [] := by
  induction side with
  | nil => simp [removeOrderFromLevels]
  | cons lvl rest ih =>
    simp only [removeOrderFromLevels]
    split
    · split
      · intro lvl2 h2
        exact h lvl2 (List.mem_cons_of_mem lvl h2)
      · rename_i hemp
        intro lvl2 h2
        rcases List.mem_cons.mp h2 with rfl | h3
        · simpa [List.isEmpty_iff] using hemp
        · exact h lvl2 (List.mem_cons_of_mem lvl h3)
    · intro lvl2 h2
      rcases List.mem_cons.mp h2 with rfl | h3
      · exact h lvl2 (List.mem_cons_self _ _)
      · exact ih (fun l hl => h l (List.mem_cons_of_mem lvl hl)) lvl2 h3

theorem removeOrderFromLevels_no_id (p : Rat) (id : String) (side : List PriceLevel)
    (hpnd : (side.map PriceLevel.price).Nodup)
    (hnd : ∀ lvl ∈ side, (lvl.orders.map Order.orderId).Nodup)
    (hloc : ∀ lvl ∈ side, ∀ o ∈ lvl.orders, o.orderId = id → lvl.price = p) :
    ∀ o ∈ levelsOrders (removeOrderFromLevels p id side), o.orderId ≠ id := by
  induction side with
  | nil => simp [removeOrderFromLevels, levelsOrders]
  | cons lvl rest ih =>
    simp only [List.map_cons, List.nodup_cons] at hpnd
    simp only [removeOrderFromLevels]
    split
    · rename_i hp
      have hrest : ∀ o ∈ levelsOrders rest, o.orderId ≠ id := by
        intro o ho hid
        obtain ⟨lvl2, hlvl2, ho2⟩ := by
          simpa [levelsOrders, List.mem_flatten] using ho
        have h5 := hloc lvl2 (List.mem_cons_of_mem lvl hlvl2) o ho2 hid
        refine hpnd.1 ?_
        rw [hp, ← h5]
        exact List.mem_map_of_mem PriceLevel.price hlvl2
      split
      · exact hrest
      · intro o ho
        simp only [levelsOrders, List.map_cons, List.flatten_cons,
          List.mem_append] at ho
        rcases ho with ho | ho
        · exact PriceLevel.removeOrder_no_id lvl id
            (hnd lvl (List.mem_cons_self _ _)) o ho
        · exact hrest o (by simpa [levelsOrders] using ho)
    · rename_i hp
      intro o ho
      simp only [levelsOrders, List.map_cons, List.flatten_cons, List.mem_append] at ho
      rcases ho with ho | ho
      · intro hid
        exact hp (hloc lvl (List.mem_cons_self _ _) o ho hid)
      · exact ih hpnd.2 (fun l hl => hnd l (List.mem_cons_of_mem lvl hl))
          (fun l hl => hloc l (List.mem_cons_of_mem lvl hl)) o
          (by simpa [levelsOrders] using ho)

theorem removeOrderFromLevels_keep (p : Rat) (id : String) (side : List PriceLevel)
    (o : Order) (ho : o ∈ levelsOrders side) (hne : o.orderId ≠ id) :
    o ∈ levelsOrders (removeOrderFromLevels p id side) := by
  induction side with
  | nil => simpa [levelsOrders] using ho
  | cons lvl rest ih =>
    simp only [levelsOrders, List.map_cons, List.flatten_cons, List.mem_append] at ho
    simp only [removeOrderFromLevels]
    split
    · split
      · rename_i hemp
        rcases ho with ho | ho
        · have h2 := PriceLevel.removeOrder_keep lvl id o ho hne
          rw [List.isEmpty_iff.mp hemp] at h2
          simp at h2
        · simpa [levelsOrders] using ho
      · rcases ho with ho | ho
        · simp only [levelsOrders, List.map_cons, List.flatten_cons, List.mem_append]
          exact Or.inl (PriceLevel.removeOrder_keep lvl id o ho hne)
        · simp only [levelsOrders, List.map_cons, List.flatten_cons, List.mem_append]
          exact Or.inr (by simpa [levelsOrders] using ho)
    · rcases ho with ho | ho
      · simp only [levelsOrders, List.map_cons, List.flatten_cons, List.mem_append]
        exact Or.inl ho
      · simp only [levelsOrders, List.map_cons, List.flatten_cons, List.mem_append]
        exact Or.inr (ih (by simpa [levelsOrders] using ho))

end MatchingEngine

namespace MatchingEngine

theorem orders_sublist_levelsOrders (side : List PriceLevel) (lvl : PriceLevel)
    (h : lvl ∈ side) : lvl.orders.Sublist (levelsOrders side) := by
  induction side with
  | nil => simp at h
  | cons lvl0 rest ih =>
    simp only [levelsOrders, List.map_cons, List.flatten_cons]
    rcases List.mem_cons.mp h with rfl | h2
    · exact List.sublist_append_left _ _
    · exact (ih h2).trans (List.sublist_append_right _ _)

theorem mem_levelsOrders_of_mem (side : List PriceLevel) (lvl : PriceLevel)
    (o : Order) (hlvl : lvl ∈ side) (ho : o ∈ lvl.orders) : o ∈ levelsOrders side :=
  (orders_sublist_levelsOrders side lvl hlvl).mem ho

theorem bookOrders_unique (book : OrderBook) (hwf : BookWF book) :
    ∀ a ∈ bookOrders book, ∀ b ∈ bookOrders book, a.orderId = b.orderId → a = b :=
  fun a ha b hb h => List.inj_on_of_nodup_map hwf.idsNodup ha hb h

theorem side_removal_facts (side : List PriceLevel) (p : Rat) (id : String)
    (hsorted : List.Pairwise (fun a b => a < b) (sidePrices side))
    (hnd : ((levelsOrders side).map Order.orderId).Nodup)
    (hloc : ∀ lvl ∈ side, ∀ o ∈ lvl.orders, o.orderId = id → lvl.price = p)
    (hne : ∀ lvl ∈ side, lvl.orders ≠ []) :
    List.Pairwise (fun a b => a < b) (sidePrices (removeOrderFromLevels p id side)) ∧
    (∀ lvl ∈ removeOrderFromLevels p id side, lvl.orders ≠ []) ∧
    ((levelsOrders (removeOrderFromLevels p id side)).Sublist (levelsOrders side)) ∧
    (∀ o ∈ levelsOrders (removeOrderFromLevels p id side), o.orderId ≠ id) ∧
    (∀ o ∈ levelsOrders side, o.orderId ≠ id →
      o ∈ levelsOrders (removeOrderFromLevels p id side)) ∧
    (∀ lvl2 ∈ removeOrderFromLevels p id side,
      ∃ lvl ∈ side, lvl2.price = lvl.price ∧ ∀ o ∈ lvl2.orders, o ∈ lvl.orders) := by
  have hpnd : (side.map PriceLevel.price).Nodup :=
    hsorted.imp (fun h => ne_of_lt h)
  have hlvlnd : ∀ lvl ∈ side, (lvl.orders.map Order.orderId).Nodup := by
    intro lvl hlvl
    exact List.Nodup.sublist
      (List.Sublist.map Order.orderId (orders_sublist_levelsOrders side lvl hlvl)) hnd
  refine ⟨?_, ?_, ?_, ?_, ?_, ?_⟩
  · exact List.Pairwise.sublist (removeOrderFromLevels_prices_sublist p id side) hsorted
  · exact removeOrderFromLevels_nonempty p id side hne
  · exact removeOrderFromLevels_levelsOrders_sublist p id side
  · exact removeOrderFromLevels_no_id p id side hpnd hlvlnd hloc
  · exact fun o ho h2 => removeOrderFromLevels_keep p id side o ho h2
  · exact removeOrderFromLevels_level_subset p id side

end MatchingEngine

namespace MatchingEngine

theorem levelsOrders_mem_elim (side : List PriceLevel) (o : Order)
    (h : o ∈ levelsOrders side) : ∃ lvl ∈ side, o ∈ lvl.orders := by
  simp only [levelsOrders, List.mem_flatten, List.mem_map] at h
  obtain ⟨l, ⟨lvl, hlvl, rfl⟩, ho⟩ := h
  exact ⟨lvl, hlvl, ho⟩

theorem mapFind_some_mem_bookOrders (book : OrderBook) (order : Order)
    (hwf : BookWF book) (hfind : mapFind book.orderMap order.orderId = some order) :
    order ∈ bookOrders book := by
  rcases mapFind_mem book.orderMap order.orderId order hfind with h | ⟨kv, hm, h1, h2⟩
  · exact hwf.mapToLevels _ h
  · have h3 := hwf.mapToLevels kv hm
    rw [h2] at h3
    exact h3

theorem removeOrderFromBook_spec (book : OrderBook) (order : Order)
    (hwf : BookWF book) (hfind : mapFind book.orderMap order.orderId = some order) :
    BookWF (book.removeOrderFromBook order) ∧
    mapFind (book.removeOrderFromBook order).orderMap order.orderId = none ∧
    (∀ id2, id2 ≠ order.orderId →
      mapFind (book.removeOrderFromBook order).orderMap id2 = mapFind book.orderMap id2) ∧
    (∀ o ∈ bookOrders (book.removeOrderFromBook order), o ∈ bookOrders book) ∧
    (∀ o ∈ bookOrders (book.removeOrderFromBook order), o.orderId ≠ order.orderId) ∧
    (∀ o ∈ bookOrders book, o.orderId ≠ order.orderId →
      o ∈ bookOrders (book.removeOrderFromBook order)) := by
  have horder : order ∈ bookOrders book := mapFind_some_mem_bookOrders book order hwf hfind
  have huniq := bookOrders_unique book hwf
  have hidsplit : ((levelsOrders book.buyLevels).map Order.orderId).Nodup ∧
      ((levelsOrders book.sellLevels).map Order.orderId).Nodup ∧
      ((levelsOrders book.buyLevels).map Order.orderId).Disjoint
        ((levelsOrders book.sellLevels).map Order.orderId) := by
    have h := hwf.idsNodup
    simp only [bookOrders, List.map_append] at h
    exact List.nodup_append.mp h
  by_cases hside : order.side = OrderSide.BUY
  · have hb' : book.removeOrderFromBook order =
        { book with
          buyLevels := removeOrderFromLevels order.price order.orderId book.buyLevels
          orderMap := mapErase book.orderMap order.orderId } := by
      simp [OrderBook.removeOrderFromBook, hside]
    have hloc : ∀ lvl ∈ book.buyLevels, ∀ o ∈ lvl.orders,
        o.orderId = order.orderId → lvl.price = order.price := by
      intro lvl hlvl o ho hid
      have hob : o ∈ bookOrders book :=
        List.mem_append.mpr (Or.inl (mem_levelsOrders_of_mem _ lvl o hlvl ho))
      have heq := huniq o hob order horder hid
      subst heq
      exact (hwf.ordersPrice lvl (List.mem_append.mpr (Or.inl hlvl)) o ho).symm
    obtain ⟨F1, F2, F3, F4, F5, F6⟩ := side_removal_facts book.buyLevels order.price
      order.orderId hwf.buySorted hidsplit.1 hloc
      (fun lvl hlvl => hwf.levelsNonempty lvl (List.mem_append.mpr (Or.inl hlvl)))
    have hsellno : ∀ o ∈ levelsOrders book.sellLevels, o.orderId ≠ order.orderId := by
      intro o ho hid
      have hob : o ∈ bookOrders book := List.mem_append.mpr (Or.inr ho)
      have heq := huniq o hob order horder hid
      subst heq
      obtain ⟨lvl, hlvl, ho2⟩ := levelsOrders_mem_elim _ o ho
      have h2 := hwf.sellSide lvl hlvl o ho2
      rw [hside] at h2
      exact OrderSide.noConfusion h2
    rw [hb']
    refine ⟨⟨F1, hwf.sellSorted, ?_, ?_, ?_, ?_, ?_, ?_, ?_, ?_, ?_⟩, ?_, ?_, ?_, ?_, ?_⟩
    · intro lvl hlvl
      rcases List.mem_append.mp hlvl with h | h
      · exact F2 lvl h
      · exact hwf.levelsNonempty lvl (List.mem_append.mpr (Or.inr h))
    · intro lvl hlvl o ho
      rcases List.mem_append.mp hlvl with h | h
      · obtain ⟨lvl0, h0, hp, hsub⟩ := F6 lvl h
        rw [hp]
        exact hwf.ordersPrice lvl0 (List.mem_append.mpr (Or.inl h0)) o (hsub o ho)
      · exact hwf.ordersPrice lvl (List.mem_append.mpr (Or.inr h)) o ho
    · intro lvl hlvl o ho
      obtain ⟨lvl0, h0, hp, hsub⟩ := F6 lvl hlvl
      exact hwf.buySide lvl0 h0 o (hsub o ho)
    · intro lvl hlvl o ho
      exact hwf.sellSide lvl hlvl o ho
    · have h := hwf.idsNodup
      exact List.Nodup.sublist
        (List.Sublist.map Order.orderId (F3.append (List.Sublist.refl _))) h
    · intro kv hkv
      exact hwf.mapKeys kv (mapErase_subset _ _ kv hkv)
    · exact List.Nodup.sublist (mapErase_fst_sublist _ _) hwf.mapNodup
    · intro kv hkv
      have hkm := mapErase_subset _ _ kv hkv
      have hb := hwf.mapToLevels kv hkm
      have hkne := mapErase_key_ne _ _ hwf.mapNodup kv hkv
      have hone : kv.2.orderId ≠ order.orderId := by
        rw [hwf.mapKeys kv hkm]
        exact hkne
      rcases List.mem_append.mp hb with h | h
      · exact List.mem_append.mpr (Or.inl (F5 _ h hone))
      · exact List.mem_append.mpr (Or.inr h)
    · intro o ho
      have ho2 : o ∈ levelsOrders (removeOrderFromLevels order.price order.orderId
          book.buyLevels) ++ levelsOrders book.sellLevels := ho
      rcases List.mem_append.mp ho2 with h | h
      · have hno := F4 o h
        rw [mapFind_mapErase_other _ _ _ hno]
        exact hwf.levelsToMap o (List.mem_append.mpr (Or.inl (F3.mem h)))
      · have hno := hsellno o h
        rw [mapFind_mapErase_other _ _ _ hno]
        exact hwf.levelsToMap o (List.mem_append.mpr (Or.inr h))
    · exact mapFind_mapErase_self _ _ hwf.mapNodup
    · intro id2 h2
      exact mapFind_mapErase_other _ _ _ h2
    · intro o ho
      have ho2 : o ∈ levelsOrders (removeOrderFromLevels order.price order.orderId
          book.buyLevels) ++ levelsOrders book.sellLevels := ho
      rcases List.mem_append.mp ho2 with h | h
      · exact List.mem_append.mpr (Or.inl (F3.mem h))
      · exact List.mem_append.mpr (Or.inr h)
    · intro o ho
      have ho2 : o ∈ levelsOrders (removeOrderFromLevels order.price order.orderId
          book.buyLevels) ++ levelsOrders book.sellLevels := ho
      rcases List.mem_append.mp ho2 with h | h
      · exact F4 o h
      · exact hsellno o h
    · intro o ho hno
      rcases List.mem_append.mp ho with h | h
      · exact List.mem_append.mpr (Or.inl (F5 o h hno))
      · exact List.mem_append.mpr (Or.inr h)
  · have hb' : book.removeOrderFromBook order =
        { book with
          sellLevels := removeOrderFromLevels order.price order.orderId book.sellLevels
          orderMap := mapErase book.orderMap order.orderId } := by
      simp [OrderBook.removeOrderFromBook, hside]
    have hloc : ∀ lvl ∈ book.sellLevels, ∀ o ∈ lvl.orders,
        o.orderId = order.orderId → lvl.price = order.price := by
      intro lvl hlvl o ho hid
      have hob : o ∈ bookOrders book :=
        List.mem_append.mpr (Or.inr (mem_levelsOrders_of_mem _ lvl o hlvl ho))
      have heq := huniq o hob order horder hid
      subst heq
      exact (hwf.ordersPrice lvl (List.mem_append.mpr (Or.inr hlvl)) o ho).symm
    obtain ⟨F1, F2, F3, F4, F5, F6⟩ := side_removal_facts book.sellLevels order.price
      order.orderId hwf.sellSorted hidsplit.2.1 hloc
      (fun lvl hlvl => hwf.levelsNonempty lvl (List.mem_append.mpr (Or.inr hlvl)))
    have hbuyno : ∀ o ∈ levelsOrders book.buyLevels, o.orderId ≠ order.orderId := by
      intro o ho hid
      have hob : o ∈ bookOrders book := List.mem_append.mpr (Or.inl ho)
      have heq := huniq o hob order horder hid
      subst heq
      obtain ⟨lvl, hlvl, ho2⟩ := levelsOrders_mem_elim _ o ho
      exact hside (hwf.buySide lvl hlvl o ho2)
    rw [hb']
    refine ⟨⟨hwf.buySorted, F1, ?_, ?_, ?_, ?_, ?_, ?_, ?_, ?_, ?_⟩, ?_, ?_, ?_, ?_, ?_⟩
    · intro lvl hlvl
      rcases List.mem_append.mp hlvl with h | h
      · exact hwf.levelsNonempty lvl (List.mem_append.mpr (Or.inl h))
      · exact F2 lvl h
    · intro lvl hlvl o ho
      rcases List.mem_append.mp hlvl with h | h
      · exact hwf.ordersPrice lvl (List.mem_append.mpr (Or.inl h)) o ho
      · obtain ⟨lvl0, h0, hp, hsub⟩ := F6 lvl h
        rw [hp]
        exact hwf.ordersPrice lvl0 (List.mem_append.mpr (Or.inr h0)) o (hsub o ho)
    · intro lvl hlvl o ho
      exact hwf.buySide lvl hlvl o ho
    · intro lvl hlvl o ho
      obtain ⟨lvl0, h0, hp, hsub⟩ := F6 lvl hlvl
      exact hwf.sellSide lvl0 h0 o (hsub o ho)
    · have h := hwf.idsNodup
      exact List.Nodup.sublist
        (List.Sublist.map Order.orderId ((List.Sublist.refl _).append F3)) h
    · intro kv hkv
      exact hwf.mapKeys kv (mapErase_subset _ _ kv hkv)
    · exact List.Nodup.sublist (mapErase_fst_sublist _ _) hwf.mapNodup
    · intro kv hkv
      have hkm := mapErase_subset _ _ kv hkv
      have hb := hwf.mapToLevels kv hkm
      have hkne := mapErase_key_ne _ _ hwf.mapNodup kv hkv
      have hone : kv.2.orderId ≠ order.orderId := by
        rw [hwf.mapKeys kv hkm]
        exact hkne
      rcases List.mem_append.mp hb with h | h
      · exact List.mem_append.mpr (Or.inl h)
      · exact List.mem_append.mpr (Or.inr (F5 _ h hone))
    · intro o ho
      have ho2 : o ∈ levelsOrders book.buyLevels ++
          levelsOrders (removeOrderFromLevels order.price order.orderId
            book.sellLevels) := ho
      rcases List.mem_append.mp ho2 with h | h
      · have hno := hbuyno o h
        rw [mapFind_mapErase_other _ _ _ hno]
        exact hwf.levelsToMap o (List.mem_append.mpr (Or.inl h))
      · have hno := F4 o h
        rw [mapFind_mapErase_other _ _ _ hno]
        exact hwf.levelsToMap o (List.mem_append.mpr (Or.inr (F3.mem h)))
    · exact mapFind_mapErase_self _ _ hwf.mapNodup
    · intro id2 h2
      exact mapFind_mapErase_other _ _ _ h2
    · intro o ho
      have ho2 : o ∈ levelsOrders book.buyLevels ++
          levelsOrders (removeOrderFromLevels order.price order.orderId
            book.sellLevels) := ho
      rcases List.mem_append.mp ho2 with h | h
      · exact List.mem_append.mpr (Or.inl h)
      · exact List.mem_append.mpr (Or.inr (F3.mem h))
    · intro o ho
      have ho2 : o ∈ levelsOrders book.buyLevels ++
          levelsOrders (removeOrderFromLevels order.price order.orderId
            book.sellLevels) := ho
      rcases List.mem_append.mp ho2 with h | h
      · exact hbuyno o h
      · exact F4 o h
    · intro o ho hno
      rcases List.mem_append.mp ho with h | h
      · exact List.mem_append.mpr (Or.inl h)
      · exact List.mem_append.mpr (Or.inr (F5 o h hno))

end MatchingEngine

namespace MatchingEngine

theorem foldl_remove_spec (orders : List Order) :
    ∀ (book : OrderBook), BookWF book →
    (∀ o ∈ orders, mapFind book.orderMap o.orderId = some o) →
    ((orders.map Order.orderId).Nodup) →
    BookWF (orders.foldl OrderBook.removeOrderFromBook book) ∧
    (∀ o ∈ orders,
      mapFind (orders.foldl OrderBook.removeOrderFromBook book).orderMap o.orderId = none ∧
      ∀ o2 ∈ bookOrders (orders.foldl OrderBook.removeOrderFromBook book),
        o2.orderId ≠ o.orderId) ∧
    (∀ id2, (∀ o ∈ orders, o.orderId ≠ id2) →
      mapFind (orders.foldl OrderBook.removeOrderFromBook book).orderMap id2 =
        mapFind book.orderMap id2) ∧
    (∀ o2 ∈ bookOrders (orders.foldl OrderBook.removeOrderFromBook book),
      o2 ∈ bookOrders book) ∧
    (∀ o2 ∈ bookOrders book, (∀ o ∈ orders, o.orderId ≠ o2.orderId) →
      o2 ∈ bookOrders (orders.foldl OrderBook.removeOrderFromBook book)) := by
  induction orders with
  | nil =>
    intro book hwf hin hnd
    exact ⟨hwf, by simp, fun id2 _ => rfl, fun o2 h => h, fun o2 h _ => h⟩
  | cons o rest ih =>
    intro book hwf hin hnd
    have hfo := hin o (List.mem_cons_self _ _)
    obtain ⟨W, N, O, S4, S5, S6⟩ := removeOrderFromBook_spec book o hwf hfo
    have hnd2 : o.orderId ∉ List.map Order.orderId rest ∧
        (List.map Order.orderId rest).Nodup := List.nodup_cons.mp (by simpa using hnd)
    have hid_ne : ∀ o2 ∈ rest, o2.orderId ≠ o.orderId := by
      intro o2 h2 heq
      exact hnd2.1 (heq ▸ List.mem_map_of_mem Order.orderId h2)
    have hin1 : ∀ o2 ∈ rest,
        mapFind (book.removeOrderFromBook o).orderMap o2.orderId = some o2 := by
      intro o2 h2
      rw [O o2.orderId (hid_ne o2 h2)]
      exact hin o2 (List.mem_cons_of_mem o h2)
    obtain ⟨W', H2', H3', H4', H5'⟩ := ih (book.removeOrderFromBook o) W hin1 hnd2.2
    have hfold : (o :: rest).foldl OrderBook.removeOrderFromBook book =
        rest.foldl OrderBook.removeOrderFromBook (book.removeOrderFromBook o) := rfl
    rw [hfold]
    refine ⟨W', ?_, ?_, ?_, ?_⟩
    · intro o2 h2
      rcases List.mem_cons.mp h2 with rfl | h3
      · refine ⟨?_, ?_⟩
        · rw [H3' o2.orderId (fun o3 h3 => hid_ne o3 h3)]
          exact N
        · intro o3 h3 heq
          exact S5 o3 (H4' o3 h3) heq
      · exact H2' o2 h3
    · intro id2 hne
      rw [H3' id2 (fun o3 h3 => hne o3 (List.mem_cons_of_mem o h3))]
      exact O id2 (Ne.symm (hne o (List.mem_cons_self _ _)))
    · intro o2 h2
      exact S4 o2 (H4' o2 h2)
    · intro o2 h2 hne
      exact H5' o2 (S6 o2 h2 (Ne.symm (hne o (List.mem_cons_self _ _))))
        (fun o3 h3 => hne o3 (List.mem_cons_of_mem o h3))

end MatchingEngine

namespace MatchingEngine

/-- Claim C6: `cancelOrder` on an unknown id, or on an order whose status is
terminal (CANCELLED, FILLED or EXPIRED), returns silently and leaves the book
unchanged. Otherwise it removes the order from its price level (never leaving
an empty level behind), erases it from the live-order index (every other id
keeps its entry), and hands back the order with status CANCELLED and the
current (nonzero) time stamped as its cancel timestamp; cancelling the same
id a second time is then a noop. -/
theorem c6_cancel_semantics (book : OrderBook) (orderId : String) (now : Nat)
    (hwf : BookWF book) (hnow : 0 < now) :
    (mapFind book.orderMap orderId = none →
      book.cancelOrder orderId now = (book, none)) ∧
    (∀ order, mapFind book.orderMap orderId = some order →
      (order.status = OrderStatus.CANCELLED ∨ order.status = OrderStatus.FILLED ∨
        order.status = OrderStatus.EXPIRED) →
      book.cancelOrder orderId now = (book, none)) ∧
    (∀ order, mapFind book.orderMap orderId = some order →
      order.status ≠ OrderStatus.CANCELLED → order.status ≠ OrderStatus.FILLED →
      order.status ≠ OrderStatus.EXPIRED →
      (book.cancelOrder orderId now).2 = some (order.cancel now) ∧
      (order.cancel now).status = OrderStatus.CANCELLED ∧
      (order.cancel now).cancelTimestamp = now ∧
      (order.cancel now).cancelTimestamp ≠ 0 ∧
      BookWF (book.cancelOrder orderId now).1 ∧
      mapFind (book.cancelOrder orderId now).1.orderMap orderId = none ∧
      (∀ id2, id2 ≠ orderId →
        mapFind (book.cancelOrder orderId now).1.orderMap id2 =
          mapFind book.orderMap id2) ∧
      (∀ o ∈ bookOrders (book.cancelOrder orderId now).1, o ∈ bookOrders book) ∧
      (∀ o ∈ bookOrders (book.cancelOrder orderId now).1, o.orderId ≠ orderId) ∧
      (∀ o ∈ bookOrders book, o.orderId ≠ orderId →
        o ∈ bookOrders (book.cancelOrder orderId now).1) ∧
      (∀ lvl ∈ (book.cancelOrder orderId now).1.buyLevels ++
          (book.cancelOrder orderId now).1.sellLevels, lvl.orders ≠ []) ∧
      (book.cancelOrder orderId now).1.cancelOrder orderId now =
        ((book.cancelOrder orderId now).1, none)) := by
  refine ⟨?_, ?_, ?_⟩
  · intro h
    simp [OrderBook.cancelOrder, h]
  · intro order hfind hterm
    simp only [OrderBook.cancelOrder, hfind]
    rw [if_pos hterm]
  · intro order hfind h1 h2 h3
    have hid : order.orderId = orderId := by
      rcases mapFind_mem _ _ _ hfind with h | ⟨kv, hm, hk1, hk2⟩
      · exact hwf.mapKeys _ h
      · have h4 := hwf.mapKeys kv hm
        rw [hk2] at h4
        rw [h4, hk1]
    have hfind' : mapFind book.orderMap order.orderId = some order := by
      rw [hid]
      exact hfind
    obtain ⟨W, N, O, S4, S5, S6⟩ := removeOrderFromBook_spec book order hwf hfind'
    have hcb : book.cancelOrder orderId now =
        (book.removeOrderFromBook order, some (order.cancel now)) := by
      simp only [OrderBook.cancelOrder, hfind]
      rw [if_neg]
      push_neg
      exact ⟨h1, h2, h3⟩
    rw [hcb]
    have hcanc : (order.cancel now).status = OrderStatus.CANCELLED ∧
        (order.cancel now).cancelTimestamp = now := by
      simp only [Order.cancel]
      rw [if_pos ⟨h1, h2, h3⟩]
      exact ⟨rfl, rfl⟩
    refine ⟨rfl, hcanc.1, hcanc.2, ?_, W, ?_, ?_, S4, ?_, ?_, W.levelsNonempty, ?_⟩
    · rw [hcanc.2]
      omega
    · rw [← hid]
      exact N
    · intro id2 hne
      refine O id2 ?_
      rw [hid]
      exact hne
    · intro o ho hne
      have h5 := S5 o ho
      rw [hid] at h5
      exact h5 hne
    · intro o ho hne
      refine S6 o ho ?_
      rw [hid]
      exact hne
    · have hnone : mapFind (book.removeOrderFromBook order).orderMap orderId = none := by
        rw [← hid]
        exact N
      simp [OrderBook.cancelOrder, hnone]

end MatchingEngine

namespace MatchingEngine

theorem c6_witness :
    mapFind c6Book.orderMap "A" = some c6Order ∧
    c6Order.status ≠ OrderStatus.CANCELLED ∧ 0 < 7 ∧
    (c6Book.cancelOrder "A" 7).2 = some (c6Order.cancel 7) ∧
    (c6Order.cancel 7).status = OrderStatus.CANCELLED ∧
    (c6Order.cancel 7).cancelTimestamp = 7 ∧
    mapFind (c6Book.cancelOrder "A" 7).1.orderMap "A" = none ∧
    (∀ lvl ∈ (c6Book.cancelOrder "A" 7).1.buyLevels ++
        (c6Book.cancelOrder "A" 7).1.sellLevels, lvl.orders ≠ []) ∧
    (c6Book.cancelOrder "A" 7).1.cancelOrder "A" 7 =
      ((c6Book.cancelOrder "A" 7).1, none) := by
  have hwf : BookWF c6Book := by
    constructor <;> decide
  have h := (c6_cancel_semantics c6Book "A" 7 hwf (by decide)).2.2 c6Order
    (by decide) (by decide) (by decide) (by decide)
  obtain ⟨a1, a2, a3, a4, a5, a6, a7, a8, a9, a10, a11, a12⟩ := h
  exact ⟨by decide, by decide, by decide, a1, a2, a3, a6, a11, a12⟩

end MatchingEngine

namespace MatchingEngine

/-- Claim C7: one pass of the expiry sweep. Eligibility is status NEW or
PARTIALLY_FILLED with age since submission at least ORDER_EXPIRY_SECONDS = 5
seconds. Every eligible map entry is removed from the index and from the
levels and returned marked EXPIRED; every ineligible entry (younger, or in a
terminal state) keeps its index entry and stays resting untouched; every
returned order stems from an eligible entry, carries status EXPIRED, and the
caller emits exactly one ORDER_EXPIRED event per returned order. -/
theorem c7_expiry_sweep (book : OrderBook) (now : Nat) (hwf : BookWF book) :
    (∀ o : Order, expiryEligible now o = true ↔
      ((o.status = OrderStatus.NEW ∨ o.status = OrderStatus.PARTIALLY_FILLED) ∧
        o.submitTimestamp + 5 ≤ now)) ∧
    (∀ kv ∈ book.orderMap, expiryEligible now kv.2 = true →
      kv.2.expire ∈ (book.expirePendingOrders now).2 ∧
      mapFind (book.expirePendingOrders now).1.orderMap kv.1 = none ∧
      (∀ o2 ∈ bookOrders (book.expirePendingOrders now).1, o2.orderId ≠ kv.1)) ∧
    (∀ kv ∈ book.orderMap, expiryEligible now kv.2 = false →
      mapFind (book.expirePendingOrders now).1.orderMap kv.1 = some kv.2 ∧
      kv.2 ∈ bookOrders (book.expirePendingOrders now).1) ∧
    (∀ o ∈ (book.expirePendingOrders now).2,
      ∃ kv ∈ book.orderMap, expiryEligible now kv.2 = true ∧ o = kv.2.expire) ∧
    (∀ o ∈ (book.expirePendingOrders now).2, o.status = OrderStatus.EXPIRED) ∧
    ((book.expirePendingOrders now).2.map (fun o => orderStatusEventStr o.status) =
      List.replicate (book.expirePendingOrders now).2.length "ORDER_EXPIRED") := by
  have hexp : book.expirePendingOrders now =
      (((book.orderMap.filter (fun kv => expiryEligible now kv.2)).map
          Prod.snd).foldl OrderBook.removeOrderFromBook book,
        ((book.orderMap.filter (fun kv => expiryEligible now kv.2)).map
          Prod.snd).map Order.expire) := rfl
  have hin : ∀ o ∈ (book.orderMap.filter (fun kv => expiryEligible now kv.2)).map
      Prod.snd, mapFind book.orderMap o.orderId = some o := by
    intro o ho
    simp only [List.mem_map, List.mem_filter] at ho
    obtain ⟨kv, ⟨hm, he⟩, rfl⟩ := ho
    rw [hwf.mapKeys kv hm]
    exact mapFind_of_mem book.orderMap kv hwf.mapNodup hm
  have hnd : (((book.orderMap.filter (fun kv => expiryEligible now kv.2)).map
      Prod.snd).map Order.orderId).Nodup := by
    have h1 : ((book.orderMap.filter (fun kv => expiryEligible now kv.2)).map
        Prod.snd).map Order.orderId =
        (book.orderMap.filter (fun kv => expiryEligible now kv.2)).map Prod.fst := by
      rw [List.map_map]
      refine List.map_congr_left ?_
      intro kv hkv
      simp only [List.mem_filter] at hkv
      exact hwf.mapKeys kv hkv.1
    rw [h1]
    exact List.Nodup.sublist
      (List.Sublist.map Prod.fst (List.filter_sublist _)) hwf.mapNodup
  obtain ⟨W, H2, H3, H4, H5⟩ := foldl_remove_spec _ book hwf hin hnd
  refine ⟨?_, ?_, ?_, ?_, ?_, ?_⟩
  · intro o
    simp only [expiryEligible, ORDER_EXPIRY_SECONDS, Bool.and_eq_true, Bool.or_eq_true,
      decide_eq_true_eq]
    constructor
    · rintro ⟨h1, h2⟩
      exact ⟨h1, by omega⟩
    · rintro ⟨h1, h2⟩
      exact ⟨h1, by omega⟩
  · intro kv hkv he
    have hmemf : kv ∈ book.orderMap.filter (fun kv => expiryEligible now kv.2) :=
      List.mem_filter.mpr ⟨hkv, he⟩
    have hmem2 : kv.2 ∈ (book.orderMap.filter
        (fun kv => expiryEligible now kv.2)).map Prod.snd :=
      List.mem_map_of_mem Prod.snd hmemf
    have hkey := hwf.mapKeys kv hkv
    obtain ⟨hnone, hgone⟩ := H2 kv.2 hmem2
    rw [hexp]
    refine ⟨List.mem_map_of_mem Order.expire hmem2, ?_, ?_⟩
    · rw [← hkey]
      exact hnone
    · intro o2 ho2
      rw [← hkey]
      exact hgone o2 ho2
  · intro kv hkv he
    have hne : ∀ o ∈ (book.orderMap.filter
        (fun kv => expiryEligible now kv.2)).map Prod.snd, o.orderId ≠ kv.1 := by
      intro o ho heq
      simp only [List.mem_map, List.mem_filter] at ho
      obtain ⟨kv2, ⟨hm2, he2⟩, rfl⟩ := ho
      have hkey2 := hwf.mapKeys kv2 hm2
      rw [hkey2] at heq
      have hkveq : kv2 = kv :=
        List.inj_on_of_nodup_map hwf.mapNodup hm2 hkv heq
      rw [hkveq] at he2
      rw [he] at he2
      exact Bool.noConfusion he2
    have hkey := hwf.mapKeys kv hkv
    rw [hexp]
    refine ⟨?_, ?_⟩
    · rw [H3 kv.1 hne]
      exact mapFind_of_mem book.orderMap kv hwf.mapNodup hkv
    · refine H5 kv.2 (hwf.mapToLevels kv hkv) ?_
      intro o ho
      rw [hkey]
      exact hne o ho
  · intro o ho
    rw [hexp] at ho
    simp only [List.mem_map, List.mem_filter] at ho
    obtain ⟨o2, ⟨kv, ⟨hm, he⟩, rfl⟩, rfl⟩ := ho
    exact ⟨kv, hm, he, rfl⟩
  · intro o ho
    rw [hexp] at ho
    simp only [List.mem_map] at ho
    obtain ⟨o2, _, rfl⟩ := ho
    rfl
  · rw [hexp]
    refine List.eq_replicate_iff.mpr ⟨by simp, ?_⟩
    intro b hb
    simp only [List.mem_map] at hb
    obtain ⟨o2, ⟨o3, _, rfl⟩, rfl⟩ := hb
    rfl

end MatchingEngine

namespace MatchingEngine

theorem c7_witness :
    expiryEligible 10 c6Order = true ∧
    expiryEligible 10 c7Young = false ∧
    ("A", c6Order) ∈ c7Book.orderMap ∧ ("B", c7Young) ∈ c7Book.orderMap ∧
    c6Order.expire ∈ (c7Book.expirePendingOrders 10).2 ∧
    mapFind (c7Book.expirePendingOrders 10).1.orderMap "A" = none ∧
    mapFind (c7Book.expirePendingOrders 10).1.orderMap "B" = some c7Young ∧
    c7Young ∈ bookOrders (c7Book.expirePendingOrders 10).1 ∧
    (∀ o ∈ (c7Book.expirePendingOrders 10).2, o.status = OrderStatus.EXPIRED) ∧
    ((c7Book.expirePendingOrders 10).2.map (fun o => orderStatusEventStr o.status) =
      List.replicate (c7Book.expirePendingOrders 10).2.length "ORDER_EXPIRED") := by
  have hwf : BookWF c7Book := by
    constructor <;> decide
  have h := c7_expiry_sweep c7Book 10 hwf
  obtain ⟨B1, B2, B3⟩ := h.2.1 ("A", c6Order) (by decide) (by decide)
  obtain ⟨C1, C2⟩ := h.2.2.1 ("B", c7Young) (by decide) (by decide)
  exact ⟨by decide, by decide, by decide, by decide, B1, B2, C1, C2,
    h.2.2.2.2.1, h.2.2.2.2.2⟩

end MatchingEngine
